import Mathlib

/-!
Formal model of the rust-ccg card-game engine core.

This file gives a shallow embedding, in Lean 4, of the parts of the
rust-ccg engine that the verified properties below are about:

* identifier newtypes and the per-player map (src/core/entity.rs, src/core/player.rs),
* the deterministic forkable RNG (src/core/rng.rs),
* the zone manager (src/zones/manager.rs),
* card instances (src/cards/instance.rs),
* public and full game state (src/core/state.rs),
* effects and the effect resolver (src/effects/effect.rs, src/effects/resolver.rs),
* the immediate resolution system (src/stack/immediate.rs),
* the priority stack (src/stack/priority.rs),
* triggers and the trigger registry (src/triggers/condition.rs, src/triggers/registry.rs),
* MCTS tree backpropagation (src/mcts/node.rs, src/mcts/tree.rs, src/mcts/search.rs),
* self-play outcome computation (src/training/self_play.rs).

Modelling conventions, applied uniformly:

* Rust machine integers are modelled as Nat or Int; a narrowing cast to u8
  is modelled by an explicit mod 256, while widening casts are dropped.
  i64 and i32 values are modelled as Int, f64 rewards as Rat (the verified
  properties only depend on which additions are performed, not on the
  rounding of individual floating-point operations).
* Rust hash maps are modelled as association lists with first-match lookup
  and replace-or-append insertion, which realises the same map abstraction.
* Mutation of a borrowed value is modelled by state passing: a Rust method
  taking a mutable reference and returning R becomes a Lean function
  returning (new value, R).
* Rust panic sites (documented programmer errors) are modelled as no-ops;
  every theorem below only exercises non-panicking executions, with
  hypotheses ruling the panicking inputs out where needed.
-/

namespace RustCcg

/-- Association list lookup: first binding of the key, as in a hash map get. -/
def mapLookup {κ α : Type} [DecidableEq κ] (k : κ) : List (κ × α) → Option α
  | [] => none
  | (k1, v) :: rest => if k1 = k then some v else mapLookup k rest

/-- Association list insert: replace the existing binding or append a new one,
as in a hash map insert. -/
def mapInsert {κ α : Type} [DecidableEq κ] (k : κ) (v : α) : List (κ × α) → List (κ × α)
  | [] => [(k, v)]
  | (k1, v1) :: rest => if k1 = k then (k, v) :: rest else (k1, v1) :: mapInsert k v rest

/-- Association list removal of the binding for a key, as in a hash map remove. -/
def mapRemove {κ α : Type} [DecidableEq κ] (k : κ) : List (κ × α) → List (κ × α)
  | [] => []
  | (k1, v1) :: rest => if k1 = k then rest else (k1, v1) :: mapRemove k rest

/-- Association list in-place update of an existing binding, as in a hash map
get_mut followed by mutation; absent keys are untouched. -/
def mapAdjust {κ α : Type} [DecidableEq κ] (k : κ) (f : α → α) : List (κ × α) → List (κ × α)
  | [] => []
  | (k1, v1) :: rest => if k1 = k then (k1, f v1) :: rest else (k1, v1) :: mapAdjust k f rest

/-- Association list key membership, as in a hash map contains_key. -/
def mapContains {κ α : Type} [DecidableEq κ] (k : κ) (m : List (κ × α)) : Bool :=
  (mapLookup k m).isSome

/-- Update the element at an index of a list in place; out of range is a no-op. -/
def listModify {α : Type} (f : α → α) : Nat → List α → List α
  | _, [] => []
  | 0, a :: rest => f a :: rest
  | n + 1, a :: rest => a :: listModify f n rest

/-- PlayerId (src/core/player.rs): newtype over u8, modelled over Nat. -/
structure PlayerId where
  raw : Nat
deriving Repr, DecidableEq

/-- PlayerId::new. The u8 argument domain is modelled by an explicit mod 256. -/
def PlayerId.new (id : Nat) : PlayerId := ⟨id % 256⟩

/-- PlayerId::all(player_count): the iterator (0..player_count as u8); the
narrowing cast of the bound to u8 is modelled by mod 256. -/
def PlayerId.all (player_count : Nat) : List PlayerId :=
  (List.range (player_count % 256)).map PlayerId.mk

/-- EntityId (src/core/entity.rs): newtype over u32. -/
structure EntityId where
  raw : Nat
deriving Repr, DecidableEq

/-- EntityId::player_id(index: u8). -/
def EntityId.player_id (index : Nat) : EntityId := ⟨index % 256⟩

/-- EntityId::first_non_player. -/
def EntityId.first_non_player (player_count : Nat) : Nat := player_count

/-- EntityId::is_player: the raw id is below the player count. -/
def EntityId.is_player (e : EntityId) (player_count : Nat) : Bool :=
  e.raw < player_count

/-- EntityId::as_player_index: Some(id as u8) when the id is a player id.
The narrowing cast to u8 is modelled by mod 256. -/
def EntityId.as_player_index (e : EntityId) (player_count : Nat) : Option Nat :=
  if e.is_player player_count then some (e.raw % 256) else none

/-- ZoneId (src/core/config.rs): opaque zone identifier. -/
structure ZoneId where
  raw : Nat
deriving Repr, DecidableEq

/-- TemplateId (src/core/config.rs): opaque action-template identifier. -/
structure TemplateId where
  raw : Nat
deriving Repr, DecidableEq

/-- PhaseId (src/core/config.rs): opaque phase identifier. -/
structure PhaseId where
  raw : Nat
deriving Repr, DecidableEq

/-- CardId (src/cards/definition.rs): card-definition identifier. -/
structure CardId where
  raw : Nat
deriving Repr, DecidableEq

/-- EventTypeId (src/triggers/event.rs): opaque event-type identifier. -/
structure EventTypeId where
  raw : Nat
deriving Repr, DecidableEq

/-- TriggerId (src/triggers/registry.rs): trigger identifier. -/
structure TriggerId where
  raw : Nat
deriving Repr, DecidableEq

/-- StackEntryId (src/stack/priority.rs): stack-entry identifier. -/
structure StackEntryId where
  raw : Nat
deriving Repr, DecidableEq

/-- PlayerMap (src/core/player.rs): a fixed-length vector indexed by player. -/
structure PlayerMap (α : Type) where
  data : List α
deriving Repr, DecidableEq

/-- PlayerMap::with_value. -/
def PlayerMap.with_value {α : Type} (player_count : Nat) (v : α) : PlayerMap α :=
  ⟨List.replicate player_count v⟩

/-- PlayerMap indexing (Index impl). The source panics when the index is out of
range; the model returns the supplied default there, and every theorem below
only reads in-range indices. -/
def PlayerMap.get {α : Type} (m : PlayerMap α) (p : PlayerId) (default : α) : α :=
  m.data.getD p.raw default

/-- PlayerMap index assignment (IndexMut impl); out of range is the
(unreachable, panicking in the source) no-op. -/
def PlayerMap.set {α : Type} (m : PlayerMap α) (p : PlayerId) (v : α) : PlayerMap α :=
  ⟨m.data.set p.raw v⟩

/-- PlayerMap in-place update through IndexMut. -/
def PlayerMap.modify {α : Type} (m : PlayerMap α) (p : PlayerId) (f : α → α) : PlayerMap α :=
  ⟨listModify f p.raw m.data⟩

/-- The 64-bit golden-ratio constant used by GameRng::fork. -/
def goldenGamma : Nat := 0x9E3779B97F4A7C15

/-- Modelled from the spec: the engine wraps a counter-based stream cipher PRNG
(the external rand_chacha ChaCha8 crate, outside this repository). The engine
relies only on the word stream being a pure function of the seed and the word
position (get_word_pos / set_word_pos give O(1) snapshots); the stream itself
is modelled by this concrete 64-bit mixing function. -/
def mix64 (z : Nat) : Nat :=
  let z1 := ((z ^^^ (z >>> 30)) * 0xBF58476D1CE4E5B9) % 2 ^ 64
  let z2 := ((z1 ^^^ (z1 >>> 27)) * 0x94D049BB133111EB) % 2 ^ 64
  (z2 ^^^ (z2 >>> 31)) % 2 ^ 64

/-- Modelled from the spec: the 32-bit word of the cipher stream for a given
seed at a given word position. -/
def streamWord (seed pos : Nat) : Nat :=
  mix64 ((seed + (pos + 1) * goldenGamma) % 2 ^ 64) % 2 ^ 32

/-- Model of the external ChaCha8Rng: fully determined by its construction seed
and current word position. -/
structure ChaCha8Rng where
  seed : Nat
  word_pos : Nat
deriving Repr, DecidableEq

/-- SeedableRng::seed_from_u64 for the modelled cipher. -/
def ChaCha8Rng.seed_from_u64 (s : Nat) : ChaCha8Rng := ⟨s % 2 ^ 64, 0⟩

/-- Draw the next 32-bit word, advancing the word position. -/
def ChaCha8Rng.next_u32 (r : ChaCha8Rng) : Nat × ChaCha8Rng :=
  (streamWord r.seed r.word_pos, ⟨r.seed, r.word_pos + 1⟩)

/-- ChaCha8Rng::get_word_pos. -/
def ChaCha8Rng.get_word_pos (r : ChaCha8Rng) : Nat := r.word_pos

/-- ChaCha8Rng::set_word_pos. -/
def ChaCha8Rng.set_word_pos (r : ChaCha8Rng) (p : Nat) : ChaCha8Rng := ⟨r.seed, p⟩

/-- GameRngState (src/core/rng.rs): serializable O(1) RNG snapshot. -/
structure GameRngState where
  seed : Nat
  word_pos : Nat
  fork_counter : Nat
deriving Repr, DecidableEq

/-- GameRng (src/core/rng.rs): deterministic RNG with forking. -/
structure GameRng where
  inner : ChaCha8Rng
  seed : Nat
  fork_counter : Nat
deriving Repr, DecidableEq

/-- GameRng::new. -/
def GameRng.new (seed : Nat) : GameRng :=
  ⟨ChaCha8Rng.seed_from_u64 seed, seed % 2 ^ 64, 0⟩

/-- GameRng::fork: increments the parent fork counter, derives the child seed
by a wrapping add of the wrapping product of the new counter with the golden
constant, and resets the counter in the child. Returns (child, parent after). -/
def GameRng.fork (r : GameRng) : GameRng × GameRng :=
  let fc := r.fork_counter + 1
  let fork_seed := (r.seed + fc * goldenGamma % 2 ^ 64) % 2 ^ 64
  (⟨ChaCha8Rng.seed_from_u64 fork_seed, fork_seed, 0⟩, ⟨r.inner, r.seed, fc⟩)

/-- A single raw draw from the generator (the primitive all ranged draws of
src/core/rng.rs consume). -/
def GameRng.next_u32 (r : GameRng) : Nat × GameRng :=
  let p := r.inner.next_u32
  (p.1, ⟨p.2, r.seed, r.fork_counter⟩)

/-- GameRng::state. -/
def GameRng.state (r : GameRng) : GameRngState :=
  ⟨r.seed, r.inner.get_word_pos, r.fork_counter⟩

/-- GameRng::from_state: reseed the cipher from the stored seed, then restore
the word position and the fork counter. -/
def GameRng.from_state (st : GameRngState) : GameRng :=
  ⟨(ChaCha8Rng.seed_from_u64 st.seed).set_word_pos st.word_pos, st.seed, st.fork_counter⟩

/-- Modelled from the spec: gen_range style usize draw in the range [0, n),
consuming one stream word (the external uniform sampler, outside this
repository, is modelled by a simple reduction of the word). -/
def GameRng.gen_range_usize (r : GameRng) (n : Nat) : Nat × GameRng :=
  let p := r.next_u32
  (p.1 % n, p.2)

/-- Swap two positions of a list; out of range leaves the list unchanged. -/
def listSwap {α : Type} (l : List α) (i j : Nat) : List α :=
  match l.get? i, l.get? j with
  | some a, some b => (l.set i b).set j a
  | _, _ => l

/-- Fisher-Yates main loop from index i downwards (model of the external rand
crate slice shuffle used by GameRng::shuffle). -/
def shuffleGo {α : Type} (p : List α × GameRng) : Nat → List α × GameRng
  | 0 => p
  | i + 1 =>
    let d := p.2.gen_range_usize (i + 2)
    shuffleGo (listSwap p.1 (i + 1) d.1, d.2) i

/-- GameRng::shuffle, via the modelled Fisher-Yates loop. -/
def GameRng.shuffle {α : Type} (r : GameRng) (l : List α) : List α × GameRng :=
  shuffleGo (l, r) (l.length - 1)

/-- Draw n words in sequence; returns them oldest first with the final state. -/
def GameRng.draws (r : GameRng) : Nat → List Nat × GameRng
  | 0 => ([], r)
  | n + 1 =>
    let p := r.next_u32
    let q := p.2.draws n
    (p.1 :: q.1, q.2)

/-- Advance the generator by n draws, discarding the values. -/
def GameRng.applyDraws (r : GameRng) (n : Nat) : GameRng := (r.draws n).2

/-- ZonePosition (src/zones/manager.rs). -/
inductive ZonePosition where
  | Top : ZonePosition
  | Bottom : ZonePosition
  | Index : Nat → ZonePosition
deriving Repr, DecidableEq

/-- ZoneManager (src/zones/manager.rs): entity locations plus explicit
sequences for ordered zones. -/
structure ZoneManager where
  locations : List (EntityId × ZoneId)
  zone_order : List (ZoneId × List EntityId)
deriving Repr, DecidableEq

/-- ZoneManager::new. -/
def ZoneManager.new : ZoneManager := ⟨[], []⟩

/-- ZoneManager::init_ordered_zone. -/
def ZoneManager.init_ordered_zone (m : ZoneManager) (zone : ZoneId) : ZoneManager :=
  if mapContains zone m.zone_order then m
  else { m with zone_order := mapInsert zone [] m.zone_order }

/-- ZoneManager::is_ordered. -/
def ZoneManager.is_ordered (m : ZoneManager) (zone : ZoneId) : Bool :=
  mapContains zone m.zone_order

/-- Insert an entity into an ordered sequence at a position (the shared match
inside add_to_zone and move_to_zone): Top pushes to the end, Bottom to the
front, Index is clamped to the length. -/
def insertAt (order : List EntityId) (entity : EntityId) (pos : ZonePosition) : List EntityId :=
  match pos with
  | ZonePosition.Top => order ++ [entity]
  | ZonePosition.Bottom => entity :: order
  | ZonePosition.Index i => order.insertIdx (min i order.length) entity

/-- ZoneManager::add_to_zone. The source panics when the entity is already
tracked; the model leaves the manager unchanged there, and every use below is
in a context where the entity is absent. -/
def ZoneManager.add_to_zone (m : ZoneManager) (entity : EntityId) (zone : ZoneId)
    (position : Option ZonePosition) : ZoneManager :=
  if mapContains entity m.locations then m
  else
    let m1 : ZoneManager := { m with locations := mapInsert entity zone m.locations }
    let ins := fun order => insertAt order entity (position.getD ZonePosition.Top)
    if mapContains zone m1.zone_order then
      { m1 with zone_order := mapAdjust zone ins m1.zone_order }
    else m1

/-- ZoneManager::move_to_zone: returns the updated manager and the old zone
(None when the entity is untracked, in which case nothing changes; when old
and new zone coincide it returns early without repositioning). -/
def ZoneManager.move_to_zone (m : ZoneManager) (entity : EntityId) (new_zone : ZoneId)
    (position : Option ZonePosition) : ZoneManager × Option ZoneId :=
  match mapLookup entity m.locations with
  | none => (m, none)
  | some old_zone =>
    if old_zone = new_zone then (m, some old_zone)
    else
      let m1 : ZoneManager :=
        { m with zone_order := mapAdjust old_zone (fun order => order.filter (· ≠ entity)) m.zone_order }
      let m2 : ZoneManager := { m1 with locations := mapInsert entity new_zone m1.locations }
      let ins := fun order => insertAt order entity (position.getD ZonePosition.Top)
      let m3 : ZoneManager :=
        if mapContains new_zone m2.zone_order then
          { m2 with zone_order := mapAdjust new_zone ins m2.zone_order }
        else m2
      (m3, some old_zone)

/-- ZoneManager::remove. -/
def ZoneManager.remove (m : ZoneManager) (entity : EntityId) : ZoneManager × Option ZoneId :=
  match mapLookup entity m.locations with
  | none => (m, none)
  | some zone =>
    ({ locations := mapRemove entity m.locations
       zone_order := mapAdjust zone (fun order => order.filter (· ≠ entity)) m.zone_order },
     some zone)

/-- ZoneManager::get_zone. -/
def ZoneManager.get_zone (m : ZoneManager) (entity : EntityId) : Option ZoneId :=
  mapLookup entity m.locations

/-- ZoneManager::is_in_zone. -/
def ZoneManager.is_in_zone (m : ZoneManager) (entity : EntityId) (zone : ZoneId) : Bool :=
  mapLookup entity m.locations = some zone

/-- ZoneManager::cards_in_zone_ordered. -/
def ZoneManager.cards_in_zone_ordered (m : ZoneManager) (zone : ZoneId) : List EntityId :=
  (mapLookup zone m.zone_order).getD []

/-- ZoneManager::pop_top: remove and return the last element of an ordered
zone sequence, dropping it from the location map as well. -/
def ZoneManager.pop_top (m : ZoneManager) (zone : ZoneId) : ZoneManager × Option EntityId :=
  match mapLookup zone m.zone_order with
  | none => (m, none)
  | some order =>
    match order.getLast? with
    | none => (m, none)
    | some entity =>
      ({ locations := mapRemove entity m.locations
         zone_order := mapInsert zone order.dropLast m.zone_order },
       some entity)

/-- ZoneManager::shuffle_zone. -/
def ZoneManager.shuffle_zone (m : ZoneManager) (zone : ZoneId) (rng : GameRng) :
    ZoneManager × GameRng :=
  match mapLookup zone m.zone_order with
  | none => (m, rng)
  | some order =>
    let p := rng.shuffle order
    ({ m with zone_order := mapInsert zone p.1 m.zone_order }, p.2)

/-- CardInstance (src/cards/instance.rs). -/
structure CardInstance where
  entity_id : EntityId
  card_id : CardId
  owner : Option PlayerId
  controller : Option PlayerId
  zone : ZoneId
  face_down : Bool
  state : List (String × Int)
deriving Repr, DecidableEq

/-- CardInstance::new. -/
def CardInstance.new (entity_id : EntityId) (card_id : CardId) (owner : PlayerId)
    (zone : ZoneId) : CardInstance :=
  ⟨entity_id, card_id, some owner, some owner, zone, false, []⟩

/-- CardInstance::get_state. -/
def CardInstance.get_state (c : CardInstance) (key : String) (default : Int) : Int :=
  (mapLookup key c.state).getD default

/-- CardInstance::set_state. -/
def CardInstance.set_state (c : CardInstance) (key : String) (value : Int) : CardInstance :=
  { c with state := mapInsert key value c.state }

/-- CardInstance::modify_state. -/
def CardInstance.modify_state (c : CardInstance) (key : String) (delta : Int) : CardInstance :=
  c.set_state key (c.get_state key 0 + delta)

/-- Action (src/core/action.rs). -/
structure Action where
  template : TemplateId
  pointers : List EntityId
deriving Repr, DecidableEq

/-- Action::new. -/
def Action.new (template : TemplateId) : Action := ⟨template, []⟩

/-- ActionRecord (src/core/action.rs): recorded action with metadata. -/
structure ActionRecord where
  player : PlayerId
  action : Action
  turn : Nat
  sequence : Nat
deriving Repr, DecidableEq

/-- PublicState (src/core/state.rs): observable game state. -/
structure PublicState where
  player_count : Nat
  phase : PhaseId
  turn_number : Nat
  action_sequence : Nat
  active_player : PlayerId
  priority_players : List PlayerId
  player_state : PlayerMap (List (String × Int))
  turn_state : List (String × Int)
  hand_sizes : PlayerMap Nat
  known_hand_cards : PlayerMap (List CardId)
  action_history : List ActionRecord
deriving Repr, DecidableEq

/-- PublicState::new. The source asserts 0 < player_count <= 255 (a
programmer-error panic otherwise); the model constructs the state regardless
and the theorems below only use asserted player counts. -/
def PublicState.new (player_count : Nat) : PublicState :=
  { player_count := player_count
    phase := ⟨0⟩
    turn_number := 1
    action_sequence := 0
    active_player := PlayerId.new 0
    priority_players := [PlayerId.new 0]
    player_state := PlayerMap.with_value player_count []
    turn_state := []
    hand_sizes := PlayerMap.with_value player_count 0
    known_hand_cards := PlayerMap.with_value player_count []
    action_history := [] }

/-- PublicState::get_player_state. -/
def PublicState.get_player_state (s : PublicState) (player : PlayerId) (key : String)
    (default : Int) : Int :=
  (mapLookup key (s.player_state.get player [])).getD default

/-- PublicState::set_player_state. -/
def PublicState.set_player_state (s : PublicState) (player : PlayerId) (key : String)
    (value : Int) : PublicState :=
  { s with player_state := s.player_state.modify player (mapInsert key value) }

/-- PublicState::modify_player_state. -/
def PublicState.modify_player_state (s : PublicState) (player : PlayerId) (key : String)
    (delta : Int) : PublicState :=
  let current := s.get_player_state player key 0
  { s with player_state := s.player_state.modify player (mapInsert key (current + delta)) }

/-- PublicState::get_turn_state. -/
def PublicState.get_turn_state (s : PublicState) (key : String) (default : Int) : Int :=
  (mapLookup key s.turn_state).getD default

/-- PublicState::set_turn_state. -/
def PublicState.set_turn_state (s : PublicState) (key : String) (value : Int) : PublicState :=
  { s with turn_state := mapInsert key value s.turn_state }

/-- GameState (src/core/state.rs): full game state with private information. -/
structure GameState where
  public : PublicState
  zones : ZoneManager
  hands : PlayerMap (List CardId)
  decks : PlayerMap (List CardId)
  cards : List (EntityId × CardInstance)
  rng : GameRng
  next_entity_id : Nat
deriving Repr, DecidableEq

/-- GameState::new. -/
def GameState.new (player_count : Nat) (seed : Nat) : GameState :=
  { public := PublicState.new player_count
    zones := ZoneManager.new
    hands := PlayerMap.with_value player_count []
    decks := PlayerMap.with_value player_count []
    cards := []
    rng := GameRng.new seed
    next_entity_id := EntityId.first_non_player player_count }

/-- GameState::player_count. -/
def GameState.player_count (s : GameState) : Nat := s.public.player_count

/-- GameState::get_card. -/
def GameState.get_card (s : GameState) (entity_id : EntityId) : Option CardInstance :=
  mapLookup entity_id s.cards

/-- GameState::get_card_mut followed by a mutation of the found card; absent
entities are untouched. -/
def GameState.adjust_card (s : GameState) (entity_id : EntityId)
    (f : CardInstance → CardInstance) : GameState :=
  { s with cards := mapAdjust entity_id f s.cards }

/-- GameState::add_card. -/
def GameState.add_card (s : GameState) (card : CardInstance) : GameState :=
  { s with
    cards := mapInsert card.entity_id card s.cards
    zones := s.zones.add_to_zone card.entity_id card.zone none }

/-- GameState::clone_state: every collection is cloned by value and the RNG is
forked; returns (clone, source after the fork-counter advance). -/
def GameState.clone_state (s : GameState) : GameState × GameState :=
  let f := s.rng.fork
  ({ public := s.public
     zones := s.zones
     hands := s.hands
     decks := s.decks
     cards := s.cards
     rng := f.1
     next_entity_id := s.next_entity_id },
   { s with rng := f.2 })

/-- Effect (src/effects/effect.rs): atomic game effect. -/
inductive Effect where
  | ModifyPlayerState : String → Int → Effect
  | SetPlayerState : String → Int → Effect
  | MoveCard : ZoneId → Option ZonePosition → Effect
  | DrawCards : Nat → Option ZoneId → Option ZoneId → Effect
  | ShuffleZone : ZoneId → Effect
  | ModifyCardState : String → Int → Effect
  | SetCardState : String → Int → Effect
  | ModifyTurnState : String → Int → Effect
  | SetTurnState : String → Int → Effect
  | Batch : List Effect → Effect
  | Conditional : String → Effect → Effect
deriving Repr

/-- Effect::damage: modify the player "life" state downward. -/
def Effect.damage (amount : Int) : Effect := Effect.ModifyPlayerState "life" (-amount)

/-- Effect::heal. -/
def Effect.heal (amount : Int) : Effect := Effect.ModifyPlayerState "life" amount

/-- Effect::draw. -/
def Effect.draw (count : Nat) : Effect := Effect.DrawCards count none none

/-- EffectEntry (src/effects/effect.rs): an effect with its targets. -/
structure EffectEntry where
  effect : Effect
  targets : List EntityId
deriving Repr

/-- EffectBatch (src/effects/effect.rs). -/
structure EffectBatch where
  entries : List EffectEntry
deriving Repr

/-- EffectBatch::new. -/
def EffectBatch.new : EffectBatch := ⟨[]⟩

/-- EffectBatch::add. -/
def EffectBatch.add (b : EffectBatch) (effect : Effect) (targets : List EntityId) : EffectBatch :=
  ⟨b.entries ++ [⟨effect, targets⟩]⟩

/-- EffectBatch::add_player: target the player entity of a player id. -/
def EffectBatch.add_player (b : EffectBatch) (effect : Effect) (player : PlayerId) : EffectBatch :=
  b.add effect [EntityId.player_id player.raw]

/-- EffectBatch::add_zone: an entry with no targets. -/
def EffectBatch.add_zone (b : EffectBatch) (effect : Effect) : EffectBatch :=
  ⟨b.entries ++ [⟨effect, []⟩]⟩

/-- EffectBatch::is_empty. -/
def EffectBatch.is_empty (b : EffectBatch) : Bool := b.entries.isEmpty

/-- ResolveResult (src/effects/resolver.rs). -/
inductive ResolveResult where
  | Success : ResolveResult
  | Failed : String → ResolveResult
  | Skipped : ResolveResult
deriving Repr, DecidableEq

/-- Whether a resolve result is Success. -/
def ResolveResult.isSuccess : ResolveResult → Bool
  | ResolveResult.Success => true
  | _ => false

/-- ResolverContext (src/effects/resolver.rs): deck/hand lookup callbacks and
the optional condition evaluator (defaulting to constantly false). -/
structure ResolverContext where
  get_deck_zone : PlayerId → ZoneId
  get_hand_zone : PlayerId → ZoneId
  eval_condition : String → GameState → Bool

/-- ResolverContext::new with the default condition evaluator. -/
def ResolverContext.mkNew (deck hand : PlayerId → ZoneId) : ResolverContext :=
  ⟨deck, hand, fun _ _ => false⟩

/-- The draw loop of the DrawCards arm of EffectResolver::resolve_single: pop
up to n entities from the top of the deck zone, add each to the hand zone,
update the card instance zone field and bump the public hand size; stops early
when the pop returns nothing. Returns the state and the number drawn. -/
def drawLoop (s : GameState) (deck hand : ZoneId) (player : PlayerId) :
    Nat → GameState × Nat
  | 0 => (s, 0)
  | n + 1 =>
    let p := s.zones.pop_top deck
    match p.2 with
    | none => (s, 0)
    | some entity_id =>
      let s1 : GameState := { s with zones := p.1.add_to_zone entity_id hand none }
      let s2 := s1.adjust_card entity_id (fun card => { card with zone := hand })
      let s3 : GameState :=
        { s2 with public :=
            { s2.public with hand_sizes := s2.public.hand_sizes.modify player (· + 1) } }
      let q := drawLoop s3 deck hand player n
      (q.1, q.2 + 1)

mutual

/-- EffectResolver::resolve_single (src/effects/resolver.rs): apply one effect
to one target, returning the new state and the per-operation result. -/
def resolveSingle (s : GameState) (effect : Effect) (target : EntityId)
    (ctx : ResolverContext) : GameState × ResolveResult :=
  match effect with
  | Effect.ModifyPlayerState key delta =>
    match target.as_player_index s.player_count with
    | some idx =>
      ({ s with public := s.public.modify_player_state (PlayerId.new idx) key delta },
       ResolveResult.Success)
    | none => (s, ResolveResult.Failed "Target is not a player")
  | Effect.SetPlayerState key value =>
    match target.as_player_index s.player_count with
    | some idx =>
      ({ s with public := s.public.set_player_state (PlayerId.new idx) key value },
       ResolveResult.Success)
    | none => (s, ResolveResult.Failed "Target is not a player")
  | Effect.MoveCard destination position =>
    if target.is_player s.player_count then
      (s, ResolveResult.Failed "Target is a player, not a card")
    else
      let s1 : GameState := { s with zones := (s.zones.move_to_zone target destination position).1 }
      (s1.adjust_card target (fun card => { card with zone := destination }),
       ResolveResult.Success)
  | Effect.DrawCards count from_zone to_zone =>
    match target.as_player_index s.player_count with
    | some idx =>
      let player := PlayerId.new idx
      let deck := from_zone.getD (ctx.get_deck_zone player)
      let hand := to_zone.getD (ctx.get_hand_zone player)
      let q := drawLoop s deck hand player count
      if q.2 > 0 then (q.1, ResolveResult.Success)
      else (q.1, ResolveResult.Failed "Deck was empty")
    | none => (s, ResolveResult.Failed "Target is not a player")
  | Effect.ModifyCardState key delta =>
    if target.is_player s.player_count then
      (s, ResolveResult.Failed "Target is a player, not a card")
    else
      match s.get_card target with
      | some _ =>
        (s.adjust_card target (fun card => card.modify_state key delta), ResolveResult.Success)
      | none => (s, ResolveResult.Failed "Card not found")
  | Effect.SetCardState key value =>
    if target.is_player s.player_count then
      (s, ResolveResult.Failed "Target is a player, not a card")
    else
      match s.get_card target with
      | some _ =>
        (s.adjust_card target (fun card => card.set_state key value), ResolveResult.Success)
      | none => (s, ResolveResult.Failed "Card not found")
  | Effect.ModifyTurnState key delta =>
    let current := s.public.get_turn_state key 0
    ({ s with public := s.public.set_turn_state key (current + delta) }, ResolveResult.Success)
  | Effect.SetTurnState key value =>
    ({ s with public := s.public.set_turn_state key value }, ResolveResult.Success)
  | Effect.ShuffleZone zone =>
    let p := s.zones.shuffle_zone zone s.rng
    ({ s with zones := p.1, rng := p.2 }, ResolveResult.Success)
  | Effect.Batch effects => resolveSub s effects target ctx
  | Effect.Conditional condition_key eff =>
    if ctx.eval_condition condition_key s then resolveSingle s eff target ctx
    else (s, ResolveResult.Skipped)

/-- The Batch arm loop of resolve_single: run the sub-effects in order against
the same target, aborting on the first Failed result. -/
def resolveSub (s : GameState) (effects : List Effect) (target : EntityId)
    (ctx : ResolverContext) : GameState × ResolveResult :=
  match effects with
  | [] => (s, ResolveResult.Success)
  | e :: rest =>
    let p := resolveSingle s e target ctx
    match p.2 with
    | ResolveResult.Failed msg => (p.1, ResolveResult.Failed msg)
    | _ => resolveSub p.1 rest target ctx

end

/-- EffectResolver::resolve_zone_effect: effects that need no target entity. -/
def resolveZoneEffect (s : GameState) (effect : Effect) (_ctx : ResolverContext) :
    GameState × ResolveResult :=
  match effect with
  | Effect.ShuffleZone zone =>
    let p := s.zones.shuffle_zone zone s.rng
    ({ s with zones := p.1, rng := p.2 }, ResolveResult.Success)
  | Effect.ModifyTurnState key delta =>
    let current := s.public.get_turn_state key 0
    ({ s with public := s.public.set_turn_state key (current + delta) }, ResolveResult.Success)
  | Effect.SetTurnState key value =>
    ({ s with public := s.public.set_turn_state key value }, ResolveResult.Success)
  | _ => (s, ResolveResult.Failed "Effect requires a target")

/-- The inner loop of EffectResolver::resolve_batch: resolve one entry against
each of its targets in slice order, accumulating the state and the results. -/
def resolveEntryTargets (ctx : ResolverContext) (entry : EffectEntry)
    (acc : GameState × List ResolveResult) : GameState × List ResolveResult :=
  entry.targets.foldl
    (fun acc2 target =>
      let p := resolveSingle acc2.1 entry.effect target ctx
      (p.1, acc2.2 ++ [p.2]))
    acc

/-- One iteration of the entry loop of EffectResolver::resolve_batch: per-target
resolution, or the zone-effect path when the entry has no targets. -/
def resolveEntryStep (ctx : ResolverContext) (acc : GameState × List ResolveResult)
    (entry : EffectEntry) : GameState × List ResolveResult :=
  let inner := resolveEntryTargets ctx entry acc
  if entry.targets.isEmpty then
    let p := resolveZoneEffect inner.1 entry.effect ctx
    (p.1, inner.2 ++ [p.2])
  else inner

/-- EffectResolver::resolve_batch (src/effects/resolver.rs): iterate the batch
entries in order; for each entry resolve per target in slice order, or run the
zone-effect path when the entry has no targets. Records per-operation results. -/
def resolve_batch (s : GameState) (batch : EffectBatch) (ctx : ResolverContext) :
    GameState × List ResolveResult :=
  batch.entries.foldl (resolveEntryStep ctx) (s, [])

/-- TriggerTiming (src/triggers/registry.rs). -/
inductive TriggerTiming where
  | Before : TriggerTiming
  | After : TriggerTiming
  | Instead : TriggerTiming
deriving Repr, DecidableEq

/-- GameEvent (src/triggers/event.rs). -/
structure GameEvent where
  event_type : EventTypeId
  source : Option EntityId
  target : Option EntityId
  player : Option PlayerId
  other_entities : List EntityId
  values : List Int
  zones : List ZoneId
  tags : List String
deriving Repr, DecidableEq

/-- GameEvent::new. -/
def GameEvent.new (event_type : EventTypeId) : GameEvent :=
  ⟨event_type, none, none, none, [], [], [], []⟩

/-- GameEvent::value. -/
def GameEvent.value (e : GameEvent) (index : Nat) (default : Int) : Int :=
  e.values.getD index default

/-- GameEvent::has_tag. -/
def GameEvent.has_tag (e : GameEvent) (tag : String) : Bool :=
  e.tags.contains tag

/-- TriggerCondition (src/triggers/condition.rs). -/
inductive TriggerCondition where
  | EventType : EventTypeId → TriggerCondition
  | AnyEventType : List EventTypeId → TriggerCondition
  | SourceIs : EntityId → TriggerCondition
  | TargetIs : EntityId → TriggerCondition
  | SourceControlledBy : PlayerId → TriggerCondition
  | TargetControlledBy : PlayerId → TriggerCondition
  | ForPlayer : PlayerId → TriggerCondition
  | SourceInZone : ZoneId → TriggerCondition
  | TargetInZone : ZoneId → TriggerCondition
  | ValueAtLeast : Nat → Int → TriggerCondition
  | ValueAtMost : Nat → Int → TriggerCondition
  | ValueInRange : Nat → Int → Int → TriggerCondition
  | HasTag : String → TriggerCondition
  | NotTag : String → TriggerCondition
  | All : List TriggerCondition → TriggerCondition
  | Any : List TriggerCondition → TriggerCondition
  | Not : TriggerCondition → TriggerCondition
  | Always : TriggerCondition
  | Never : TriggerCondition
  | Custom : String → TriggerCondition
deriving Repr

/-- ConditionContext (src/triggers/condition.rs): event, state and the
optional host-supplied evaluator for Custom conditions. -/
structure ConditionContext where
  event : GameEvent
  state : GameState
  eval_custom : Option (String → GameEvent → GameState → Bool)

/-- The i64 minimum, used as the out-of-range default by ValueAtLeast. -/
def i64Min : Int := -(2 ^ 63)

/-- The i64 maximum, used as the out-of-range default by ValueAtMost. -/
def i64Max : Int := 2 ^ 63 - 1

/-- ConditionEvaluator::evaluate (src/triggers/condition.rs). -/
def evaluate (condition : TriggerCondition) (ctx : ConditionContext) : Bool :=
  match condition with
  | TriggerCondition.EventType expected => ctx.event.event_type = expected
  | TriggerCondition.AnyEventType types => types.contains ctx.event.event_type
  | TriggerCondition.SourceIs entity => ctx.event.source = some entity
  | TriggerCondition.TargetIs entity => ctx.event.target = some entity
  | TriggerCondition.SourceControlledBy player =>
    match ctx.event.source with
    | some source =>
      match ctx.state.get_card source with
      | some card => card.controller = some player
      | none => false
    | none => false
  | TriggerCondition.TargetControlledBy player =>
    match ctx.event.target with
    | some target =>
      match ctx.state.get_card target with
      | some card => card.controller = some player
      | none => false
    | none => false
  | TriggerCondition.ForPlayer player => ctx.event.player = some player
  | TriggerCondition.SourceInZone zone =>
    match ctx.event.source with
    | some source => ctx.state.zones.is_in_zone source zone
    | none => false
  | TriggerCondition.TargetInZone zone =>
    match ctx.event.target with
    | some target => ctx.state.zones.is_in_zone target zone
    | none => false
  | TriggerCondition.ValueAtLeast index min => ctx.event.value index i64Min ≥ min
  | TriggerCondition.ValueAtMost index max => ctx.event.value index i64Max ≤ max
  | TriggerCondition.ValueInRange index min max =>
    let v := ctx.event.value index 0
    min ≤ v ∧ v ≤ max
  | TriggerCondition.HasTag tag => ctx.event.has_tag tag
  | TriggerCondition.NotTag tag => !(ctx.event.has_tag tag)
  | TriggerCondition.All conditions => conditions.attach.all fun c => evaluate c.1 ctx
  | TriggerCondition.Any conditions => conditions.attach.any fun c => evaluate c.1 ctx
  | TriggerCondition.Not inner => !(evaluate inner ctx)
  | TriggerCondition.Always => true
  | TriggerCondition.Never => false
  | TriggerCondition.Custom key =>
    match ctx.eval_custom with
    | some ev => ev key ctx.event ctx.state
    | none => false
termination_by sizeOf condition
decreasing_by
  all_goals simp_wf
  all_goals first
  | omega
  | (have h := List.sizeOf_lt_of_mem c.2
     omega)

/-- Trigger (src/triggers/registry.rs). -/
structure Trigger where
  id : TriggerId
  name : String
  source : Option EntityId
  controller : Option PlayerId
  event_types : List EventTypeId
  condition : TriggerCondition
  timing : TriggerTiming
  effects : List Effect
  enabled : Bool
  uses_remaining : Option Nat
  priority : Int
deriving Repr

/-- Trigger::can_fire: enabled, and uses remaining positive or unlimited. -/
def Trigger.can_fire (t : Trigger) : Bool :=
  t.enabled && (match t.uses_remaining with
    | none => true
    | some u => u > 0)

/-- TriggeredEffect (src/triggers/registry.rs). -/
structure TriggeredEffect where
  trigger_id : TriggerId
  controller : Option PlayerId
  source : Option EntityId
  effects : List Effect
  triggering_event : GameEvent
  timing : TriggerTiming
deriving Repr

/-- TriggerRegistry (src/triggers/registry.rs). -/
structure TriggerRegistry where
  triggers : List (TriggerId × Trigger)
  by_event_type : List (EventTypeId × List TriggerId)
  next_id : Nat
deriving Repr

/-- TriggerRegistry::register. -/
def TriggerRegistry.register (reg : TriggerRegistry) (trigger : Trigger) :
    TriggerRegistry × TriggerId :=
  let assigned :=
    if trigger.id.raw = 0 then ({ trigger with id := ⟨reg.next_id⟩ }, reg.next_id + 1)
    else (trigger, reg.next_id)
  let t := assigned.1
  let indexed := t.event_types.foldl
    (fun buckets et =>
      match mapLookup et buckets with
      | some lst => mapInsert et (lst ++ [t.id]) buckets
      | none => mapInsert et [t.id] buckets)
    reg.by_event_type
  (⟨mapInsert t.id t reg.triggers, indexed, assigned.2⟩, t.id)

/-- The lexicographic order used on (priority, trigger id, effect) triples by
find_triggers: priority descending, trigger id ascending. -/
def trigLE (a b : Int × TriggerId × TriggeredEffect) : Prop :=
  b.1 < a.1 ∨ (a.1 = b.1 ∧ a.2.1.raw ≤ b.2.1.raw)

instance : DecidableRel trigLE := fun a b => by
  unfold trigLE
  infer_instance

instance : IsTotal (Int × TriggerId × TriggeredEffect) trigLE where
  total a b := by
    unfold trigLE
    omega

instance : IsTrans (Int × TriggerId × TriggeredEffect) trigLE where
  trans a b c hab hbc := by
    unfold trigLE at *
    omega

/-- The filter step of TriggerRegistry::find_triggers for one bucket entry:
look the trigger up, and keep it when its timing matches, it can fire, and its
condition evaluates to true, producing (priority, id, TriggeredEffect). -/
def findTriggersEntry (reg : TriggerRegistry) (event : GameEvent) (state : GameState)
    (timing : TriggerTiming) (custom_eval : Option (String → GameEvent → GameState → Bool))
    (trigger_id : TriggerId) : Option (Int × TriggerId × TriggeredEffect) :=
  match mapLookup trigger_id reg.triggers with
  | none => none
  | some trigger =>
    if trigger.timing = timing ∧ trigger.can_fire ∧
        evaluate trigger.condition ⟨event, state, custom_eval⟩ then
      some (trigger.priority, trigger_id,
        ⟨trigger_id, trigger.controller, trigger.source, trigger.effects, event, trigger.timing⟩)
    else none

/-- TriggerRegistry::find_triggers (src/triggers/registry.rs): filter the
event-type bucket, then sort by priority descending with ties broken by
trigger id ascending (a stable sort in the source; ties in the full key can
only be duplicates of one trigger, so a sorted permutation is unique). -/
def TriggerRegistry.find_triggers (reg : TriggerRegistry) (event : GameEvent)
    (state : GameState) (timing : TriggerTiming)
    (custom_eval : Option (String → GameEvent → GameState → Bool)) : List TriggeredEffect :=
  match mapLookup event.event_type reg.by_event_type with
  | none => []
  | some trigger_ids =>
    let results := trigger_ids.filterMap (findTriggersEntry reg event state timing custom_eval)
    (List.insertionSort trigLE results).map (fun x => x.2.2)

/-- ResolutionStatus (src/stack/mod.rs). -/
inductive ResolutionStatus where
  | Complete : ResolutionStatus
  | WaitingForPriority : PlayerId → ResolutionStatus
  | Processing : ResolutionStatus
deriving Repr, DecidableEq

/-- PendingEffect (src/stack/immediate.rs). -/
structure PendingEffect where
  effects : EffectBatch
  controller : PlayerId
deriving Repr

/-- ImmediateResolution (src/stack/immediate.rs): a queue of pending batches. -/
structure ImmediateResolution where
  pending : List PendingEffect
deriving Repr

/-- ImmediateResolution::new. -/
def ImmediateResolution.mkNew : ImmediateResolution := ⟨[]⟩

/-- ImmediateResolution::queue_action: push the batch unless it is empty. -/
def ImmediateResolution.queue_action (r : ImmediateResolution) (_source_action : Action)
    (effects : EffectBatch) (controller : PlayerId) : ImmediateResolution :=
  if effects.is_empty then r else ⟨r.pending ++ [⟨effects, controller⟩]⟩

/-- Convert a TriggeredEffect to a pending batch: each sub-effect targets the
controller, or becomes a zone effect when there is no controller (shared by
ImmediateResolution::queue_triggered and PriorityStack::flush_triggers). -/
def triggeredToBatch (triggered : TriggeredEffect) : EffectBatch :=
  triggered.effects.foldl
    (fun batch effect =>
      match triggered.controller with
      | some controller => batch.add_player effect controller
      | none => batch.add_zone effect)
    EffectBatch.new

/-- ImmediateResolution::queue_triggered. -/
def ImmediateResolution.queue_triggered (r : ImmediateResolution)
    (triggered : TriggeredEffect) : ImmediateResolution :=
  if triggered.effects.isEmpty then r
  else
    ⟨r.pending ++ [⟨triggeredToBatch triggered, triggered.controller.getD (PlayerId.new 0)⟩]⟩

/-- The drain loop of ImmediateResolution::process: repeatedly pop the LAST
pending entry (Vec::pop) and resolve its batch, until the queue is empty. -/
def drainPending (ctx : ResolverContext) (s : GameState) (l : List PendingEffect) : GameState :=
  match l with
  | [] => s
  | p :: ps =>
    let last := (p :: ps).getLast (List.cons_ne_nil p ps)
    drainPending ctx (resolve_batch s last.effects ctx).1 ((p :: ps).dropLast)
termination_by l.length
decreasing_by
  simp [List.length_dropLast]

/-- ImmediateResolution::process: drain every pending batch (from the end of
the queue) and return Complete. -/
def ImmediateResolution.process (r : ImmediateResolution) (s : GameState)
    (ctx : ResolverContext) : ImmediateResolution × GameState × ResolutionStatus :=
  (⟨[]⟩, drainPending ctx s r.pending, ResolutionStatus.Complete)

/-- StackSource (src/stack/priority.rs). -/
inductive StackSource where
  | Action : Action → StackSource
  | Triggered : TriggerId → GameEvent → StackSource
  | Response : String → StackSource
deriving Repr

/-- StackEntry (src/stack/priority.rs). -/
structure StackEntry where
  id : StackEntryId
  effects : EffectBatch
  controller : PlayerId
  source : StackSource
deriving Repr

/-- PriorityStack (src/stack/priority.rs). -/
structure PriorityStack where
  entries : List StackEntry
  pending_triggers : List TriggeredEffect
  current_priority : PlayerId
  consecutive_passes : Nat
  player_count : Nat
  next_id : Nat
deriving Repr

/-- PriorityStack::new. -/
def PriorityStack.mkNew (player_count : Nat) : PriorityStack :=
  ⟨[], [], PlayerId.new 0, 0, player_count, 0⟩

/-- PriorityStack::advance_priority: next player in index order; the narrowing
cast of the new index to u8 is the mod 256 inside PlayerId.new. -/
def PriorityStack.advance_priority (s : PriorityStack) : PriorityStack :=
  { s with current_priority := PlayerId.new ((s.current_priority.raw + 1) % s.player_count) }

/-- PriorityStack::pass: reject a pass from the wrong player; otherwise count
the pass and either report that all players passed or advance priority. -/
def PriorityStack.pass (s : PriorityStack) (player : PlayerId) : PriorityStack × Bool :=
  if player ≠ s.current_priority then (s, false)
  else
    let s1 : PriorityStack := { s with consecutive_passes := s.consecutive_passes + 1 }
    if s1.consecutive_passes ≥ s1.player_count then (s1, true)
    else (s1.advance_priority, false)

/-- PriorityStack::respond: push a Response entry with the next entry id,
reset the pass counter and give priority to the responder. -/
def PriorityStack.respond (s : PriorityStack) (effects : EffectBatch) (controller : PlayerId)
    (description : String) : PriorityStack :=
  { s with
    entries := s.entries ++ [⟨⟨s.next_id⟩, effects, controller, StackSource.Response description⟩]
    next_id := s.next_id + 1
    consecutive_passes := 0
    current_priority := controller }

/-- PriorityStack::queue_action: push an entry (unless the batch is empty),
reset passes, give priority to the controller. -/
def PriorityStack.queue_action (s : PriorityStack) (source_action : Action)
    (effects : EffectBatch) (controller : PlayerId) : PriorityStack :=
  if effects.is_empty then s
  else
    { s with
      entries := s.entries ++ [⟨⟨s.next_id⟩, effects, controller, StackSource.Action source_action⟩]
      next_id := s.next_id + 1
      consecutive_passes := 0
      current_priority := controller }

/-- NodeId (src/mcts/node.rs): index into the tree arena. -/
structure NodeId where
  raw : Nat
deriving Repr, DecidableEq

/-- Edge (src/mcts/node.rs): an action edge with visit and reward statistics.
The f64 reward sums are modelled as exact rationals. -/
structure Edge where
  action : Action
  child : NodeId
  visits : Nat
  total_reward : PlayerMap Rat
  prior : Rat
deriving Repr, DecidableEq

/-- Edge::new. -/
def Edge.mkNew (action : Action) (player_count : Nat) : Edge :=
  ⟨action, ⟨2 ^ 32 - 1⟩, 0, PlayerMap.with_value player_count 0, 1⟩

/-- MCTSNode (src/mcts/node.rs). -/
structure MCTSNode where
  parent : NodeId
  parent_edge : Nat
  to_move : PlayerId
  depth : Nat
  visits : Nat
  is_terminal : Bool
  terminal_reward : Option (PlayerMap Rat)
  edges : List Edge
deriving Repr, DecidableEq

/-- MCTSTree (src/mcts/tree.rs): arena of nodes; the root is index 0 after
initialisation. -/
structure MCTSTree where
  nodes : List MCTSNode
  root : NodeId
  player_count : Nat
deriving Repr, DecidableEq

/-- MCTSTree::get_mut followed by a mutation of the node at an id (out of
range is a programmer-error panic in the source, modelled as a no-op). -/
def MCTSTree.modifyNode (t : MCTSTree) (id : NodeId) (f : MCTSNode → MCTSNode) : MCTSTree :=
  { t with nodes := listModify f id.raw t.nodes }

/-- The per-player reward accumulation loop of MCTSSearch::backpropagate:
for every player p of the game, total_reward[p] += rewards[p]. -/
def addRewards (player_count : Nat) (total rewards : PlayerMap Rat) : PlayerMap Rat :=
  (PlayerId.all player_count).foldl
    (fun acc p => acc.set p (acc.get p 0 + rewards.get p 0)) total

/-- The update applied to one (node, edge index) pair of the path in
MCTSSearch::backpropagate. -/
def backpropStep (player_count : Nat) (rewards : PlayerMap Rat) (edge_idx : Nat)
    (n : MCTSNode) : MCTSNode :=
  { n with
    visits := n.visits + 1
    edges := listModify
      (fun e => { e with
        visits := e.visits + 1
        total_reward := addRewards player_count e.total_reward rewards })
      edge_idx n.edges }

/-- MCTSSearch::backpropagate (src/mcts/search.rs): walk the recorded path in
reverse (tip toward root), bumping each node visit count, each edge visit
count and each edge reward vector, then bump the root visit count last. -/
def backpropagate (tree : MCTSTree) (path : List (NodeId × Nat)) (rewards : PlayerMap Rat) :
    MCTSTree :=
  let t1 := path.reverse.foldl
    (fun tr pe => tr.modifyNode pe.1 (backpropStep tree.player_count rewards pe.2))
    tree
  t1.modifyNode t1.root (fun n => { n with visits := n.visits + 1 })

/-- GameResult (src/rules/engine.rs). -/
inductive GameResult where
  | Winner : PlayerId → GameResult
  | Winners : List PlayerId → GameResult
  | Draw : GameResult
deriving Repr, DecidableEq

/-- SelfPlayWorker::compute_outcome (src/training/self_play.rs): rewards for
each player from the terminal result of the finished game, or the 0.5
heuristic when the game did not complete (hit the move cap or ran out of
legal actions). The f64 shares are modelled as exact rationals. -/
def compute_outcome (result : Option GameResult) (player_count : Nat) : PlayerMap Rat :=
  let outcome := PlayerMap.with_value player_count (0 : Rat)
  match result with
  | some (GameResult.Winner winner) => outcome.set winner 1
  | some (GameResult.Winners winners) =>
    let share : Rat := 1 / (winners.length : Rat)
    winners.foldl (fun acc p => acc.set p share) outcome
  | some GameResult.Draw =>
    let share : Rat := 1 / (player_count : Rat)
    (PlayerId.all player_count).foldl (fun acc p => acc.set p share) outcome
  | none =>
    (PlayerId.all player_count).foldl (fun acc p => acc.set p (1 / 2 : Rat)) outcome

/-- A concrete stack entry used by closed instances below. -/
def entry0 : StackEntry :=
  ⟨⟨0⟩, EffectBatch.new, PlayerId.new 0, StackSource.Response "e"⟩

/-- A concrete two-player priority stack holding one entry. -/
def stack0 : PriorityStack := ⟨[entry0], [], PlayerId.new 0, 0, 2, 1⟩

/-- Well-formedness of a GameRng value: the stored seed is reduced mod 2^64
and agrees with the seed the cipher was constructed from. Every GameRng the
code constructs satisfies this. -/
def GameRng.wf (r : GameRng) : Prop := r.seed < 2 ^ 64 ∧ r.inner.seed = r.seed

/-- Spec-side description of the atomic resolutions a batch performs: for each
entry in list order, one operation per target in slice order, or a single
zone operation when the entry has no targets. -/
def specResolveOps : List EffectEntry → List (Effect × Option EntityId)
  | [] => []
  | entry :: rest =>
    (if entry.targets.isEmpty then [(entry.effect, none)]
     else entry.targets.map (fun t => (entry.effect, some t))) ++ specResolveOps rest

/-- Spec-side application of one atomic resolution to the state. -/
def specApplyOp (ctx : ResolverContext) (s : GameState) (op : Effect × Option EntityId) :
    GameState :=
  match op.2 with
  | some t => (resolveSingle s op.1 t ctx).1
  | none => (resolveZoneEffect s op.1 ctx).1

/-- Spec-side application of a whole batch: fold the flattened atomic
operations, entries in list order and targets in slice order. -/
def specApplyBatch (ctx : ResolverContext) (s : GameState) (batch : EffectBatch) : GameState :=
  (specResolveOps batch.entries).foldl (specApplyOp ctx) s

/-- Fold a list of queue_action submissions into an immediate resolver. -/
def queueAll (r : ImmediateResolution) (subs : List (Action × EffectBatch × PlayerId)) :
    ImmediateResolution :=
  subs.foldl (fun acc sub => acc.queue_action sub.1 sub.2.1 sub.2.2) r

/-- A resolver context used by the closed instances below. -/
def ctx0 : ResolverContext := ResolverContext.mkNew (fun _ => ⟨0⟩) (fun _ => ⟨1⟩)

/-- A concrete fresh two-player game state. -/
def s0 : GameState := GameState.new 2 42

/-- First submitted batch: set player 0 state "k" to 1. -/
def b1 : EffectBatch := EffectBatch.new.add_player (Effect.SetPlayerState "k" 1) (PlayerId.new 0)

/-- Second submitted batch: set player 0 state "k" to 2. -/
def b2 : EffectBatch := EffectBatch.new.add_player (Effect.SetPlayerState "k" 2) (PlayerId.new 0)

/-- The two submissions, b1 first. -/
def subs0 : List (Action × EffectBatch × PlayerId) :=
  [(Action.new ⟨1⟩, b1, PlayerId.new 0), (Action.new ⟨1⟩, b2, PlayerId.new 0)]

/-- The triggers of the event-type bucket that match timing, can fire and
whose condition holds, as TriggeredEffect records, in bucket order. -/
def matchingTriggeredEffects (reg : TriggerRegistry) (event : GameEvent) (state : GameState)
    (timing : TriggerTiming) (custom_eval : Option (String → GameEvent → GameState → Bool)) :
    List TriggeredEffect :=
  ((mapLookup event.event_type reg.by_event_type).getD []).filterMap
    (fun tid => (findTriggersEntry reg event state timing custom_eval tid).map (fun x => x.2.2))

/-- A concrete two-node, two-player tree: root node 0 with one edge to node 1. -/
def tree0 : MCTSTree :=
  ⟨[⟨⟨2 ^ 32 - 1⟩, 0, PlayerId.new 0, 0, 0, false, none, [Edge.mkNew (Action.new ⟨0⟩) 2]⟩,
    ⟨⟨0⟩, 0, PlayerId.new 1, 1, 0, false, none, []⟩], ⟨0⟩, 2⟩

/-- A concrete recorded path: the root and its edge 0. -/
def path0 : List (NodeId × Nat) := [(⟨0⟩, 0)]

/-- A concrete per-player reward vector. -/
def rew0 : PlayerMap Rat := ⟨[1, 0]⟩

/-- A two-player state with one card (entity 10) in the deck zone 0 and an
empty hand zone 1, used to exercise the DrawCards characterization. -/
def sDraw : GameState :=
  { GameState.new 2 42 with
    zones := { locations := [((⟨10⟩ : EntityId), (⟨0⟩ : ZoneId))], zone_order := [((⟨0⟩ : ZoneId), [(⟨10⟩ : EntityId)]), ((⟨1⟩ : ZoneId), [])] } }

/-- C3: on a non-empty PriorityStack (with the documented player bound and a
valid priority player), pass by the wrong player returns false and changes
nothing; pass by the priority player increments the consecutive-pass counter
and either returns true (leaving priority in place) once the counter reaches
the player count, or returns false and advances priority to
(current + 1) mod player_count. -/
theorem priority_pass_spec (s : PriorityStack) (p : PlayerId)
    (hentries : s.entries ≠ [])
    (hpc : s.player_count ≤ 256)
    (hcur : s.current_priority.raw < s.player_count) :
    (p ≠ s.current_priority → s.pass p = (s, false)) ∧
    (p = s.current_priority →
      (s.pass p).1.consecutive_passes = s.consecutive_passes + 1 ∧
      (s.pass p).1.entries = s.entries ∧
      (if s.consecutive_passes + 1 ≥ s.player_count then
        (s.pass p).2 = true ∧ (s.pass p).1.current_priority = s.current_priority
      else
        (s.pass p).2 = false ∧
        (s.pass p).1.current_priority = ⟨(s.current_priority.raw + 1) % s.player_count⟩)) := by
  constructor
  · intro hne
    simp [PriorityStack.pass, hne]
  · intro heq
    subst heq
    by_cases hge : s.consecutive_passes + 1 ≥ s.player_count
    · simp [PriorityStack.pass, hge]
    · have hpos : 0 < s.player_count := by omega
      have hlt : (s.current_priority.raw + 1) % s.player_count < s.player_count :=
        Nat.mod_lt _ hpos
      simp only [PriorityStack.pass, if_neg (fun h : s.current_priority ≠ s.current_priority => h rfl),
        hge, if_neg hge]
      refine ⟨by simp [PriorityStack.advance_priority], by simp [PriorityStack.advance_priority], ?_⟩
      simp [PriorityStack.advance_priority, PlayerId.new]
      omega

/-- C3 witness: the wrong-player case of priority_pass_spec at a concrete
two-player stack with one entry. -/
theorem priority_pass_spec_witness : stack0.pass (PlayerId.new 1) = (stack0, false) :=
  (priority_pass_spec stack0 (PlayerId.new 1) (by simp [stack0])
    (by simp [stack0]) (by simp [stack0, PlayerId.new])).1 (by decide)

/-- C10: respond never rejects: for every stack (even empty, and from any
responder), it appends a Response entry carrying the next entry id (fresh,
given the invariant that existing ids are below next_id), increments next_id,
resets the consecutive-pass counter and hands priority to the responder. -/
theorem priority_respond_spec (s : PriorityStack) (effects : EffectBatch)
    (controller : PlayerId) (description : String)
    (hfresh : ∀ e ∈ s.entries, e.id.raw < s.next_id) :
    (s.respond effects controller description).entries =
      s.entries ++ [⟨⟨s.next_id⟩, effects, controller, StackSource.Response description⟩] ∧
    (s.respond effects controller description).consecutive_passes = 0 ∧
    (s.respond effects controller description).current_priority = controller ∧
    (s.respond effects controller description).next_id = s.next_id + 1 ∧
    (∀ e ∈ s.entries, e.id ≠ ⟨s.next_id⟩) ∧
    (∀ e ∈ (s.respond effects controller description).entries,
      e.id.raw < (s.respond effects controller description).next_id) := by
  refine ⟨rfl, rfl, rfl, rfl, ?_, ?_⟩
  · intro e he hid
    have h := hfresh e he
    rw [hid] at h
    simp at h
  · intro e he
    simp only [PriorityStack.respond, List.mem_append, List.mem_singleton] at he
    rcases he with he | he
    · have h := hfresh e he
      simp only [PriorityStack.respond]
      omega
    · subst he
      simp [PriorityStack.respond]

/-- C10 witness: respond on the empty two-player stack by player 1. -/
theorem priority_respond_spec_witness :
    ((PriorityStack.mkNew 2).respond EffectBatch.new (PlayerId.new 1) "r").entries =
      [⟨⟨0⟩, EffectBatch.new, PlayerId.new 1, StackSource.Response "r"⟩] ∧
    ((PriorityStack.mkNew 2).respond EffectBatch.new (PlayerId.new 1) "r").consecutive_passes = 0 ∧
    ((PriorityStack.mkNew 2).respond EffectBatch.new (PlayerId.new 1) "r").current_priority =
      PlayerId.new 1 := by
  have h := priority_respond_spec (PriorityStack.mkNew 2) EffectBatch.new (PlayerId.new 1) "r"
    (by simp [PriorityStack.mkNew])
  exact ⟨by simpa [PriorityStack.mkNew] using h.1, h.2.1, h.2.2.1⟩

/-- C7: clone_state. The embedding passes state by value, so mutating the
returned clone cannot change the source value by construction; the checkable
content is that the source comes back unchanged except for the RNG fork
counter advancing by one, and that the clone carries equal observable fields
with its own deterministically derived RNG stream. -/
theorem clone_state_spec (s : GameState) :
    (s.clone_state.2.public = s.public ∧
     s.clone_state.2.zones = s.zones ∧
     s.clone_state.2.hands = s.hands ∧
     s.clone_state.2.decks = s.decks ∧
     s.clone_state.2.cards = s.cards ∧
     s.clone_state.2.next_entity_id = s.next_entity_id ∧
     s.clone_state.2.rng.seed = s.rng.seed ∧
     s.clone_state.2.rng.inner = s.rng.inner ∧
     s.clone_state.2.rng.fork_counter = s.rng.fork_counter + 1) ∧
    (s.clone_state.1.public = s.public ∧
     s.clone_state.1.zones = s.zones ∧
     s.clone_state.1.hands = s.hands ∧
     s.clone_state.1.decks = s.decks ∧
     s.clone_state.1.cards = s.cards ∧
     s.clone_state.1.next_entity_id = s.next_entity_id ∧
     s.clone_state.1.rng =
       GameRng.new ((s.rng.seed + (s.rng.fork_counter + 1) * goldenGamma % 2 ^ 64) % 2 ^ 64)) := by
  refine ⟨⟨rfl, rfl, rfl, rfl, rfl, rfl, rfl, rfl, rfl⟩, rfl, rfl, rfl, rfl, rfl, rfl, ?_⟩
  simp only [GameState.clone_state, GameRng.fork, GameRng.new, ChaCha8Rng.seed_from_u64,
    GameRng.mk.injEq, ChaCha8Rng.mk.injEq]
  exact ⟨trivial, (Nat.mod_mod_of_dvd _ dvd_rfl).symm, trivial⟩

theorem GameRng.wf_new (s : Nat) : (GameRng.new s).wf := by
  constructor
  · exact Nat.mod_lt _ (by norm_num)
  · rfl

theorem GameRng.wf_next_u32 (r : GameRng) (h : r.wf) : r.next_u32.2.wf := by
  exact ⟨h.1, h.2⟩

theorem GameRng.wf_draws (r : GameRng) (h : r.wf) : ∀ n, (r.draws n).2.wf := by
  intro n
  induction n generalizing r with
  | zero => exact h
  | succ n ih => exact ih _ (r.wf_next_u32 h)

/-- Restoring from the serialized (seed, word position, fork counter) snapshot
reconstructs the generator exactly, for well-formed generators. -/
theorem GameRng.from_state_state (r : GameRng) (h : r.wf) :
    GameRng.from_state r.state = r := by
  obtain ⟨h1, h2⟩ := h
  cases r with
  | mk inner seed fc =>
    cases inner with
    | mk iseed wp =>
      simp only [GameRng.wf] at h1 h2
      subst h2
      simp only [GameRng.from_state, GameRng.state, ChaCha8Rng.seed_from_u64,
        ChaCha8Rng.set_word_pos, ChaCha8Rng.get_word_pos, GameRng.mk.injEq, ChaCha8Rng.mk.injEq]
      exact ⟨⟨Nat.mod_eq_of_lt h1, trivial⟩, trivial, trivial⟩

/-- C8: the generator after any number of prior draws from GameRng::new(s) is
a pure value (so its draw sequence is fixed across runs), and restoring from
its serialized state (seed, word_position, fork_counter) yields a generator
whose next K draws are identical, for every K. -/
theorem gamerng_roundtrip_spec (seed n K : Nat) :
    GameRng.from_state ((GameRng.new seed).applyDraws n).state =
      (GameRng.new seed).applyDraws n ∧
    (GameRng.from_state ((GameRng.new seed).applyDraws n).state).draws K =
      ((GameRng.new seed).applyDraws n).draws K := by
  have hwf : ((GameRng.new seed).applyDraws n).wf :=
    (GameRng.new seed).wf_draws (GameRng.wf_new seed) n
  have h := GameRng.from_state_state _ hwf
  exact ⟨h, by rw [h]⟩

theorem PlayerId.mem_all {p : PlayerId} {pc : Nat} : p ∈ PlayerId.all pc ↔ p.raw < pc % 256 := by
  cases p with
  | mk raw =>
    simp only [PlayerId.all, List.mem_map, List.mem_range]
    constructor
    · rintro ⟨a, ha, heq⟩
      have h : a = raw := congrArg PlayerId.raw heq
      omega
    · intro h
      exact ⟨raw, h, rfl⟩

theorem PlayerMap.get?_set {α : Type} (m : PlayerMap α) (q : PlayerId) (v : α) (i : Nat) :
    (m.set q v).data[i]? =
      if q.raw = i then (m.data[i]?).map (fun _ => v) else m.data[i]? := by
  simp only [PlayerMap.set, List.getElem?_set']
  split
  · rfl
  · rfl

theorem PlayerMap.get?_foldl_set_const {α : Type} (v : α) (p : PlayerId) :
    ∀ (l : List PlayerId) (init : PlayerMap α),
      (l.foldl (fun acc q => acc.set q v) init).data[p.raw]? =
        if p ∈ l then (init.data[p.raw]?).map (fun _ => v) else init.data[p.raw]? := by
  intro l
  induction l with
  | nil => simp
  | cons q rest ih =>
    intro init
    rw [List.foldl_cons, ih (init.set q v), PlayerMap.get?_set]
    by_cases hpq : p = q
    · subst hpq
      by_cases hm : p ∈ rest
      · simp [hm, Option.map_map, Function.comp_def]
      · simp [hm]
    · have hraw : ¬ q.raw = p.raw := by
        intro h
        apply hpq
        cases p
        cases q
        simp_all
      by_cases hm : p ∈ rest
      · simp [hm, hraw, hpq]
      · simp [hm, hraw, hpq]

theorem PlayerMap.get_eq_get? {α : Type} (m : PlayerMap α) (p : PlayerId) (d : α) :
    m.get p d = (m.data[p.raw]?).getD d := by
  simp [PlayerMap.get]

/-- C9: the self-play outcome vector of SelfPlayWorker::compute_outcome (what
play_game attaches to the trajectory after its move loop): a single winner
gets 1 and everyone else 0; on a draw every player gets 1/player_count; with
multiple winners each winner gets 1/|winners| and the rest 0; and when the
game ended without a terminal result (the move cap was reached) every player
gets 0.5. -/
theorem compute_outcome_spec (player_count : Nat) (hpc : player_count ≤ 255) :
    (∀ w : PlayerId, w.raw < player_count →
      (compute_outcome (some (GameResult.Winner w)) player_count).get w 0 = 1 ∧
      (∀ p : PlayerId, p.raw < player_count → p ≠ w →
        (compute_outcome (some (GameResult.Winner w)) player_count).get p 0 = 0)) ∧
    (∀ winners : List PlayerId, (∀ w ∈ winners, w.raw < player_count) →
      (∀ w ∈ winners,
        (compute_outcome (some (GameResult.Winners winners)) player_count).get w 0
          = 1 / (winners.length : Rat)) ∧
      (∀ p : PlayerId, p.raw < player_count → p ∉ winners →
        (compute_outcome (some (GameResult.Winners winners)) player_count).get p 0 = 0)) ∧
    (∀ p : PlayerId, p.raw < player_count →
      (compute_outcome (some GameResult.Draw) player_count).get p 0
        = 1 / (player_count : Rat)) ∧
    (∀ p : PlayerId, p.raw < player_count →
      (compute_outcome none player_count).get p 0 = 1 / 2) := by
  refine ⟨?_, ?_, ?_, ?_⟩
  · intro w hw
    constructor
    · rw [compute_outcome, PlayerMap.get_eq_get?, PlayerMap.get?_set]
      simp [PlayerMap.with_value, List.getElem?_replicate, hw]
    · intro p hp hne
      rw [compute_outcome, PlayerMap.get_eq_get?, PlayerMap.get?_set]
      have hraw : ¬ w.raw = p.raw := by
        intro h
        apply hne
        cases p
        cases w
        simp_all
      simp [PlayerMap.with_value, List.getElem?_replicate, hp, hraw]
  · intro winners hws
    have hgen : ∀ (p : PlayerId), p.raw < player_count →
        (compute_outcome (some (GameResult.Winners winners)) player_count).get p 0 =
          if p ∈ winners then 1 / (winners.length : Rat) else 0 := by
      intro p hp
      rw [compute_outcome, PlayerMap.get_eq_get?]
      rw [PlayerMap.get?_foldl_set_const (1 / (winners.length : Rat)) p winners
        (PlayerMap.with_value player_count 0)]
      by_cases hm : p ∈ winners <;>
        simp [hm, PlayerMap.with_value, List.getElem?_replicate, hp]
    constructor
    · intro w hw
      rw [hgen w (hws w hw)]
      simp [hw]
    · intro p hp hnm
      rw [hgen p hp]
      simp [hnm]
  · intro p hp
    rw [compute_outcome, PlayerMap.get_eq_get?]
    rw [PlayerMap.get?_foldl_set_const (1 / (player_count : Rat)) p
      (PlayerId.all player_count) (PlayerMap.with_value player_count 0)]
    rw [if_pos (PlayerId.mem_all.mpr (by omega))]
    simp [PlayerMap.with_value, List.getElem?_replicate, hp]
  · intro p hp
    rw [compute_outcome, PlayerMap.get_eq_get?]
    rw [PlayerMap.get?_foldl_set_const (1 / 2 : Rat) p
      (PlayerId.all player_count) (PlayerMap.with_value player_count 0)]
    rw [if_pos (PlayerId.mem_all.mpr (by omega))]
    simp [PlayerMap.with_value, List.getElem?_replicate, hp]

/-- C9 witness: a concrete three-player draw pays 1/3 to player 0, and a
concrete two-player win by player 1 pays 1 to the winner and 0 to player 0. -/
theorem compute_outcome_spec_witness :
    (compute_outcome (some GameResult.Draw) 3).get (PlayerId.new 0) 0 = 1 / 3 ∧
    (compute_outcome (some (GameResult.Winner (PlayerId.new 1))) 2).get (PlayerId.new 1) 0 = 1 ∧
    (compute_outcome (some (GameResult.Winner (PlayerId.new 1))) 2).get (PlayerId.new 0) 0 = 0 := by
  refine ⟨?_, ?_, ?_⟩
  · have h := (compute_outcome_spec 3 (by omega)).2.2.1 (PlayerId.new 0) (by decide)
    rw [h]
    norm_num
  · exact ((compute_outcome_spec 2 (by omega)).1 (PlayerId.new 1) (by decide)).1
  · exact ((compute_outcome_spec 2 (by omega)).1 (PlayerId.new 1) (by decide)).2
      (PlayerId.new 0) (by decide) (by decide)

theorem foldl_pair_fst {β : Type} (g : GameState → β → GameState × ResolveResult) :
    ∀ (l : List β) (acc : GameState × List ResolveResult),
      (l.foldl (fun acc2 b => ((g acc2.1 b).1, acc2.2 ++ [(g acc2.1 b).2])) acc).1 =
        l.foldl (fun st b => (g st b).1) acc.1 := by
  intro l
  induction l with
  | nil => intro acc; rfl
  | cons b rest ih => intro acc; simpa using ih _

theorem resolveEntryTargets_fst (ctx : ResolverContext) (entry : EffectEntry)
    (acc : GameState × List ResolveResult) :
    (resolveEntryTargets ctx entry acc).1 =
      entry.targets.foldl (fun st t => (resolveSingle st entry.effect t ctx).1) acc.1 := by
  unfold resolveEntryTargets
  exact foldl_pair_fst (fun st t => resolveSingle st entry.effect t ctx) entry.targets acc

theorem resolveEntryStep_fst (ctx : ResolverContext) (acc : GameState × List ResolveResult)
    (entry : EffectEntry) :
    (resolveEntryStep ctx acc entry).1 =
      (specResolveOps [entry]).foldl (specApplyOp ctx) acc.1 := by
  unfold resolveEntryStep specResolveOps
  by_cases he : entry.targets.isEmpty
  · have : entry.targets = [] := by simpa using he
    simp [he, resolveEntryTargets, this, specResolveOps, specApplyOp]
  · simp only [he, if_neg, Bool.false_eq_true, not_false_eq_true, if_false,
      resolveEntryTargets_fst, List.append_nil, specResolveOps, List.foldl_map]
    rfl

theorem foldl_resolveEntryStep_fst (ctx : ResolverContext) :
    ∀ (entries : List EffectEntry) (acc : GameState × List ResolveResult),
      (entries.foldl (resolveEntryStep ctx) acc).1 =
        (specResolveOps entries).foldl (specApplyOp ctx) acc.1 := by
  intro entries
  induction entries with
  | nil => intro acc; rfl
  | cons entry rest ih =>
    intro acc
    rw [List.foldl_cons, ih (resolveEntryStep ctx acc entry),
      show specResolveOps (entry :: rest) = specResolveOps [entry] ++ specResolveOps rest from by
        simp [specResolveOps],
      List.foldl_append, resolveEntryStep_fst]

/-- The state component of resolve_batch refines the spec-side flat fold:
entries in list order, targets in slice order. -/
theorem resolve_batch_fst (ctx : ResolverContext) (s : GameState) (batch : EffectBatch) :
    (resolve_batch s batch ctx).1 = specApplyBatch ctx s batch :=
  foldl_resolveEntryStep_fst ctx batch.entries (s, [])

theorem drainPending_nil (ctx : ResolverContext) (s : GameState) :
    drainPending ctx s [] = s := by
  rw [drainPending]

/-- Popping the last element first: one unfolding step of drainPending on a
queue written as init ++ [last]. -/
theorem drainPending_concat (ctx : ResolverContext) (s : GameState)
    (init : List PendingEffect) (last : PendingEffect) :
    drainPending ctx s (init ++ [last]) =
      drainPending ctx (resolve_batch s last.effects ctx).1 init := by
  match init with
  | [] =>
    simp only [List.nil_append]
    conv_lhs => rw [drainPending]
    simp [drainPending_nil]
  | q :: qs =>
    rw [List.cons_append, drainPending.eq_2 ctx s q (qs ++ [last])]
    simp only [← List.cons_append, List.getLast_concat, List.dropLast_concat]

/-- drainPending processes the queued batches in reverse queue order. -/
theorem drainPending_eq_reverse_foldl (ctx : ResolverContext) :
    ∀ (l : List PendingEffect) (s : GameState),
      drainPending ctx s l =
        l.reverse.foldl (fun st p => (resolve_batch st p.effects ctx).1) s := by
  intro l
  induction l using List.reverseRecOn with
  | nil => intro s; rw [drainPending]; rfl
  | append_singleton init last ih =>
    intro s
    rw [drainPending_concat, ih, List.reverse_append]
    rfl

theorem queueAll_pending :
    ∀ (subs : List (Action × EffectBatch × PlayerId)) (r : ImmediateResolution),
      (queueAll r subs).pending =
        r.pending ++ subs.filterMap
          (fun sub => if sub.2.1.is_empty then none else some ⟨sub.2.1, sub.2.2⟩) := by
  intro subs
  induction subs with
  | nil => intro r; simp [queueAll]
  | cons sub rest ih =>
    intro r
    rw [queueAll, List.foldl_cons, ← queueAll, ih, List.filterMap_cons]
    by_cases he : sub.2.1.is_empty
    · simp [ImmediateResolution.queue_action, he]
    · simp [ImmediateResolution.queue_action, he]

/-- C1 (amended): for every sequence of batches submitted through queue_action
to the immediate resolution system and then drained by process, the non-empty
batches are applied to the game state in REVERSE submission order (process
pops from the end of the pending queue); within each batch the entries
resolve in list order and each entry's targets resolve in slice order (the
flat specApplyBatch fold). The drained resolver is empty and the status is
Complete. -/
theorem immediate_process_reverse_order (ctx : ResolverContext) (s : GameState)
    (subs : List (Action × EffectBatch × PlayerId)) :
    ((queueAll ImmediateResolution.mkNew subs).process s ctx).2.1 =
      ((subs.filterMap (fun sub => if sub.2.1.is_empty then none else some sub.2.1)).reverse).foldl
        (fun st b => specApplyBatch ctx st b) s ∧
    ((queueAll ImmediateResolution.mkNew subs).process s ctx).2.2 = ResolutionStatus.Complete ∧
    ((queueAll ImmediateResolution.mkNew subs).process s ctx).1.pending = [] := by
  refine ⟨?_, rfl, rfl⟩
  show drainPending ctx s (queueAll ImmediateResolution.mkNew subs).pending = _
  rw [queueAll_pending, drainPending_eq_reverse_foldl]
  show List.foldl _ s (List.reverse (List.filterMap _ subs)) = _
  have hmap : (subs.filterMap
        (fun sub => if sub.2.1.is_empty then none else some (⟨sub.2.1, sub.2.2⟩ : PendingEffect))).map
        PendingEffect.effects =
      subs.filterMap (fun sub => if sub.2.1.is_empty then none else some sub.2.1) := by
    rw [List.map_filterMap]
    congr 1
    funext sub
    by_cases he : sub.2.1.is_empty <;> simp [he]
  rw [← hmap, ← List.map_reverse, List.foldl_map]
  congr 1
  funext st p
  exact resolve_batch_fst ctx st p.effects

/-- C1 counterexample: submitting b1 then b2 and processing leaves "k" = 1
(the later submission resolved first), while applying the batches in
submission order would leave "k" = 2: the processed state differs from the
submission-order state at an explicit concrete input. -/
theorem immediate_process_not_submission_order :
    ((queueAll ImmediateResolution.mkNew subs0).process s0 ctx0).2.1.public.get_player_state
        (PlayerId.new 0) "k" 0 = 1 ∧
    (([b1, b2].foldl (fun st b => specApplyBatch ctx0 st b) s0)).public.get_player_state
        (PlayerId.new 0) "k" 0 = 2 ∧
    ((queueAll ImmediateResolution.mkNew subs0).process s0 ctx0).2.1 ≠
      [b1, b2].foldl (fun st b => specApplyBatch ctx0 st b) s0 := by
  have hred : ((queueAll ImmediateResolution.mkNew subs0).process s0 ctx0).2.1 =
      ((queueAll ImmediateResolution.mkNew subs0).pending).reverse.foldl
        (fun st p => (resolve_batch st p.effects ctx0).1) s0 := by
    rw [show ((queueAll ImmediateResolution.mkNew subs0).process s0 ctx0).2.1 =
        drainPending ctx0 s0 (queueAll ImmediateResolution.mkNew subs0).pending from rfl]
    rw [drainPending_eq_reverse_foldl]
  rw [hred]
  refine ⟨by decide, by decide, by decide⟩

/-- C2 counterexample: MoveCard targeting the non-player entity 5, which has
no live card instance in a fresh two-player state, resolves with Success (the
MoveCard arm never checks the card map), contradicting the claim that card
effects succeed only on targets with a live card instance. -/
theorem move_card_succeeds_without_instance :
    (resolveSingle s0 (Effect.MoveCard ⟨3⟩ none) ⟨5⟩ ctx0).2 = ResolveResult.Success ∧
    s0.get_card ⟨5⟩ = none ∧
    (⟨5⟩ : EntityId).is_player s0.player_count = false := by
  refine ⟨by decide, by decide, by decide⟩

/-- C2 (amended): player-state effects (ModifyPlayerState, SetPlayerState)
succeed exactly on player-entity targets and DrawCards succeeds only on one;
ModifyCardState and SetCardState succeed exactly on non-player targets with a
live card instance in the card map; MoveCard succeeds on EVERY non-player
target, even without a live card instance; every type mismatch returns
Failed. -/
theorem resolve_single_target_typing (s : GameState) (ctx : ResolverContext)
    (target : EntityId) (key : String) (delta value : Int) (count : Nat)
    (fz tz : Option ZoneId) (dst : ZoneId) (pos : Option ZonePosition) :
    ((resolveSingle s (Effect.ModifyPlayerState key delta) target ctx).2.isSuccess = true ↔
      target.is_player s.player_count = true) ∧
    ((resolveSingle s (Effect.SetPlayerState key value) target ctx).2.isSuccess = true ↔
      target.is_player s.player_count = true) ∧
    ((resolveSingle s (Effect.DrawCards count fz tz) target ctx).2.isSuccess = true →
      target.is_player s.player_count = true) ∧
    ((resolveSingle s (Effect.MoveCard dst pos) target ctx).2.isSuccess = true ↔
      target.is_player s.player_count = false) ∧
    ((resolveSingle s (Effect.ModifyCardState key delta) target ctx).2.isSuccess = true ↔
      (target.is_player s.player_count = false ∧ (s.get_card target).isSome = true)) ∧
    ((resolveSingle s (Effect.SetCardState key value) target ctx).2.isSuccess = true ↔
      (target.is_player s.player_count = false ∧ (s.get_card target).isSome = true)) := by
  have hsplit : ∀ pc : Nat, target.as_player_index pc =
      if target.is_player pc then some (target.raw % 256) else none := fun _ => rfl
  refine ⟨?_, ?_, ?_, ?_, ?_, ?_⟩
  · rw [resolveSingle, hsplit]
    by_cases h : target.is_player s.player_count <;>
      simp [h, ResolveResult.isSuccess]
  · rw [resolveSingle, hsplit]
    by_cases h : target.is_player s.player_count <;>
      simp [h, ResolveResult.isSuccess]
  · rw [resolveSingle, hsplit]
    by_cases h : target.is_player s.player_count <;>
      simp [h, ResolveResult.isSuccess]
  · rw [resolveSingle]
    by_cases h : target.is_player s.player_count <;>
      simp [h, ResolveResult.isSuccess]
  · rw [resolveSingle]
    by_cases h : target.is_player s.player_count
    · simp [h, ResolveResult.isSuccess]
    · cases hc : s.get_card target <;> simp [h, hc, ResolveResult.isSuccess]
  · rw [resolveSingle]
    by_cases h : target.is_player s.player_count
    · simp [h, ResolveResult.isSuccess]
    · cases hc : s.get_card target <;> simp [h, hc, ResolveResult.isSuccess]

/-- C2 witness: the typing characterization applied at concrete inputs: a
SetPlayerState on the player-1 entity succeeds, and a SetCardState on a
non-player entity with no live card does not. -/
theorem resolve_single_target_typing_witness :
    (resolveSingle s0 (Effect.SetPlayerState "life" 5) (EntityId.player_id 1) ctx0).2.isSuccess
      = true ∧
    (resolveSingle s0 (Effect.SetCardState "life" 5) (⟨7⟩ : EntityId) ctx0).2.isSuccess
      = false := by
  have h := resolve_single_target_typing s0 ctx0 (EntityId.player_id 1) "life" 5 5 1 none none
    ⟨3⟩ none
  have h7 := resolve_single_target_typing s0 ctx0 (⟨7⟩ : EntityId) "life" 5 5 1 none none
    ⟨3⟩ none
  constructor
  · exact h.2.1.mpr (by decide)
  · have hne : ¬ ((resolveSingle s0 (Effect.SetCardState "life" 5) (⟨7⟩ : EntityId) ctx0).2.isSuccess
        = true) := by
      intro hcontra
      have := (h7.2.2.2.2.2.mp hcontra).2
      revert this
      decide
    revert hne
    cases (resolveSingle s0 (Effect.SetCardState "life" 5) (⟨7⟩ : EntityId) ctx0).2.isSuccess <;>
      simp

theorem findTriggersEntry_inv (reg : TriggerRegistry) (event : GameEvent) (state : GameState)
    (timing : TriggerTiming) (ce : Option (String → GameEvent → GameState → Bool))
    (tid : TriggerId) (x : Int × TriggerId × TriggeredEffect)
    (h : findTriggersEntry reg event state timing ce tid = some x) :
    ∃ t : Trigger, mapLookup x.2.1 reg.triggers = some t ∧ x.1 = t.priority ∧
      x.2.2.trigger_id = x.2.1 := by
  unfold findTriggersEntry at h
  split at h
  · exact absurd h (by simp)
  · rename_i t heq
    split at h
    · injection h with h
      subst h
      exact ⟨t, heq, rfl, rfl⟩
    · exact absurd h (by simp)

theorem mem_filterMap_inv (reg : TriggerRegistry) (event : GameEvent) (state : GameState)
    (timing : TriggerTiming) (ce : Option (String → GameEvent → GameState → Bool))
    (ids : List TriggerId) (x : Int × TriggerId × TriggeredEffect)
    (hx : x ∈ ids.filterMap (findTriggersEntry reg event state timing ce)) :
    ∃ t : Trigger, mapLookup x.2.1 reg.triggers = some t ∧ x.1 = t.priority ∧
      x.2.2.trigger_id = x.2.1 := by
  obtain ⟨tid, _, h⟩ := List.mem_filterMap.mp hx
  exact findTriggersEntry_inv reg event state timing ce tid x h

/-- C6: find_triggers returns exactly the triggers of the event-type bucket
whose timing matches, whose can_fire holds and whose condition evaluates true
(a permutation of the bucket-order matching list), sorted by priority
descending with ties broken by trigger id ascending. -/
theorem find_triggers_spec (reg : TriggerRegistry) (event : GameEvent) (state : GameState)
    (timing : TriggerTiming) (ce : Option (String → GameEvent → GameState → Bool)) :
    (reg.find_triggers event state timing ce).Perm
      (matchingTriggeredEffects reg event state timing ce) ∧
    List.Pairwise
      (fun e1 e2 : TriggeredEffect =>
        ∀ t1 t2 : Trigger, mapLookup e1.trigger_id reg.triggers = some t1 →
          mapLookup e2.trigger_id reg.triggers = some t2 →
          (t2.priority < t1.priority ∨
            (t1.priority = t2.priority ∧ e1.trigger_id.raw ≤ e2.trigger_id.raw)))
      (reg.find_triggers event state timing ce) := by
  unfold TriggerRegistry.find_triggers matchingTriggeredEffects
  cases hb : mapLookup event.event_type reg.by_event_type with
  | none => simp
  | some ids =>
    simp only [Option.getD_some]
    constructor
    · have hperm : (List.insertionSort trigLE
          (ids.filterMap (findTriggersEntry reg event state timing ce))).Perm
          (ids.filterMap (findTriggersEntry reg event state timing ce)) :=
        List.perm_insertionSort trigLE _
      have hmap := hperm.map (fun x : Int × TriggerId × TriggeredEffect => x.2.2)
      refine hmap.trans ?_
      rw [List.map_filterMap]
    · have hsorted : List.Pairwise trigLE (List.insertionSort trigLE
          (ids.filterMap (findTriggersEntry reg event state timing ce))) :=
        List.sorted_insertionSort trigLE _
      rw [List.pairwise_map]
      refine hsorted.imp_of_mem ?_
      intro a b ha hb hab
      have hmema : a ∈ ids.filterMap (findTriggersEntry reg event state timing ce) :=
        (List.perm_insertionSort trigLE _).subset ha
      have hmemb : b ∈ ids.filterMap (findTriggersEntry reg event state timing ce) :=
        (List.perm_insertionSort trigLE _).subset hb
      obtain ⟨ta, hla, hpa, hia⟩ := mem_filterMap_inv reg event state timing ce ids a hmema
      obtain ⟨tb, hlb, hpb, hib⟩ := mem_filterMap_inv reg event state timing ce ids b hmemb
      intro t1 t2 h1 h2
      rw [hia] at h1
      rw [hib] at h2
      rw [hla] at h1
      rw [hlb] at h2
      injection h1 with h1
      injection h2 with h2
      subst h1
      subst h2
      rcases hab with h | ⟨heq, hle⟩
      · left
        rw [← hpa, ← hpb]
        exact h
      · right
        rw [← hpa, ← hpb, hia, hib]
        exact ⟨heq, hle⟩

theorem listModify_getElem? {α : Type} (f : α → α) :
    ∀ (i : Nat) (l : List α) (j : Nat),
      (listModify f i l)[j]? = if i = j then (l[j]?).map f else l[j]? := by
  intro i l
  induction l generalizing i with
  | nil => intro j; cases i <;> simp [listModify]
  | cons a rest ih =>
    intro j
    cases i with
    | zero =>
      cases j with
      | zero => simp [listModify]
      | succ j => simp [listModify]
    | succ i =>
      cases j with
      | zero => simp [listModify]
      | succ j =>
        simp only [listModify, List.getElem?_cons_succ]
        rw [ih i j]
        by_cases h : i = j
        · simp [h]
        · simp [h, fun hc : i + 1 = j + 1 => h (by omega)]

theorem listModify_length {α : Type} (f : α → α) :
    ∀ (i : Nat) (l : List α), (listModify f i l).length = l.length := by
  intro i l
  induction l generalizing i with
  | nil => cases i <;> simp [listModify]
  | cons a rest ih =>
    cases i with
    | zero => simp [listModify]
    | succ i => simp [listModify, ih i]

theorem PlayerId.all_nodup (pc : Nat) : (PlayerId.all pc).Nodup := by
  refine (List.nodup_range _).map ?_
  intro a b h
  exact congrArg PlayerId.raw h

theorem get?_foldl_set_add (rewards : PlayerMap Rat) :
    ∀ (l : List PlayerId), l.Nodup → ∀ (init : PlayerMap Rat) (p : PlayerId),
      (l.foldl (fun acc q => acc.set q (acc.get q 0 + rewards.get q 0)) init).data[p.raw]? =
        if p ∈ l then (init.data[p.raw]?).map (fun x => x + rewards.get p 0)
        else init.data[p.raw]? := by
  intro l
  induction l with
  | nil => intro _ init p; simp
  | cons q rest ih =>
    intro hnd init p
    have hq := (List.nodup_cons.mp hnd).1
    have hrest := (List.nodup_cons.mp hnd).2
    rw [List.foldl_cons, ih hrest]
    by_cases hpq : p = q
    · subst hpq
      rw [if_neg hq, if_pos (List.mem_cons_self p rest), PlayerMap.get?_set, if_pos rfl,
        PlayerMap.get_eq_get?]
      cases h : init.data[p.raw]? <;> simp [h]
    · have hraw : ¬ p.raw = q.raw := by
        intro h
        apply hpq
        cases p
        cases q
        simp_all
      have hraw2 : ¬ q.raw = p.raw := fun h => hraw h.symm
      rw [PlayerMap.get?_set]
      by_cases hm : p ∈ rest
      · simp [hm, hpq, hraw2]
      · simp [hm, hpq, hraw2]

theorem addRewards_get?_mem (pc : Nat) (total rewards : PlayerMap Rat) (p : PlayerId)
    (hp : p ∈ PlayerId.all pc) :
    (addRewards pc total rewards).data[p.raw]? =
      (total.data[p.raw]?).map (fun x => x + rewards.get p 0) := by
  unfold addRewards
  rw [get?_foldl_set_add rewards (PlayerId.all pc) (PlayerId.all_nodup pc) total p, if_pos hp]

theorem countP_reverse {α : Type} (p : α → Bool) (l : List α) :
    l.reverse.countP p = l.countP p := by
  simp [List.countP_eq_length_filter, List.filter_reverse]

theorem bp_fold_root (pc : Nat) (rewards : PlayerMap Rat) :
    ∀ (q : List (NodeId × Nat)) (t : MCTSTree),
      (q.foldl (fun tr pe => tr.modifyNode pe.1 (backpropStep pc rewards pe.2)) t).root = t.root := by
  intro q
  induction q with
  | nil => intro t; rfl
  | cons pe rest ih => intro t; rw [List.foldl_cons, ih]; rfl

theorem bp_fold_visits (pc : Nat) (rewards : PlayerMap Rat) :
    ∀ (q : List (NodeId × Nat)) (t : MCTSTree) (i : Nat),
      ((q.foldl (fun tr pe => tr.modifyNode pe.1 (backpropStep pc rewards pe.2)) t).nodes[i]?).map
          MCTSNode.visits =
        (t.nodes[i]?).map (fun n => n.visits + q.countP (fun pe => pe.1.raw == i)) := by
  intro q
  induction q with
  | nil => intro t i; cases h : t.nodes[i]? <;> simp [h]
  | cons pe rest ih =>
    intro t i
    rw [List.foldl_cons, ih]
    simp only [MCTSTree.modifyNode]
    rw [listModify_getElem?]
    by_cases hc : pe.1.raw = i
    · subst hc
      rw [if_pos rfl]
      cases h : t.nodes[pe.1.raw]? <;>
        simp [h, backpropStep, List.countP_cons]
      omega
    · rw [if_neg hc]
      cases h : t.nodes[i]? <;>
        simp [h, List.countP_cons, hc]

theorem bp_fold_edge_visits (pc : Nat) (rewards : PlayerMap Rat) :
    ∀ (q : List (NodeId × Nat)) (t : MCTSTree) (i j : Nat),
      (((q.foldl (fun tr pe => tr.modifyNode pe.1 (backpropStep pc rewards pe.2)) t).nodes[i]?).bind
          (fun n => n.edges[j]?)).map Edge.visits =
        ((t.nodes[i]?).bind (fun n => n.edges[j]?)).map
          (fun e => e.visits + q.countP (fun pe => pe.1.raw == i && pe.2 == j)) := by
  intro q
  induction q with
  | nil =>
    intro t i j
    cases h : t.nodes[i]? with
    | none => simp [h]
    | some n => cases he : n.edges[j]? <;> simp [h, he]
  | cons pe rest ih =>
    intro t i j
    rw [List.foldl_cons, ih]
    simp only [MCTSTree.modifyNode]
    rw [listModify_getElem?]
    by_cases hc : pe.1.raw = i
    · subst hc
      rw [if_pos rfl]
      cases h : t.nodes[pe.1.raw]? with
      | none => simp [h]
      | some n =>
        simp only [h, Option.map_some', Option.some_bind, backpropStep]
        rw [listModify_getElem?]
        by_cases hj : pe.2 = j
        · subst hj
          cases he : n.edges[pe.2]? <;>
            simp [he, List.countP_cons]
          omega
        · rw [if_neg hj]
          cases he : n.edges[j]? <;>
            simp [he, List.countP_cons, hj]
    · rw [if_neg hc]
      cases h : t.nodes[i]? with
      | none => simp [h]
      | some n =>
        cases he : n.edges[j]? <;>
          simp [h, he, List.countP_cons, hc]

theorem bp_fold_edge_reward (pc : Nat) (rewards : PlayerMap Rat) (p : PlayerId)
    (hp : p ∈ PlayerId.all pc) :
    ∀ (q : List (NodeId × Nat)) (t : MCTSTree) (i j : Nat),
      (((q.foldl (fun tr pe => tr.modifyNode pe.1 (backpropStep pc rewards pe.2)) t).nodes[i]?).bind
          (fun n => n.edges[j]?)).map (fun e => e.total_reward.data[p.raw]?) =
        ((t.nodes[i]?).bind (fun n => n.edges[j]?)).map
          (fun e => (e.total_reward.data[p.raw]?).map
            (fun x => x + (q.countP (fun pe => pe.1.raw == i && pe.2 == j) : Rat) *
              rewards.get p 0)) := by
  intro q
  induction q with
  | nil =>
    intro t i j
    cases h : t.nodes[i]? with
    | none => simp [h]
    | some n =>
      cases he : n.edges[j]? with
      | none => simp [h, he]
      | some e => cases hr : e.total_reward.data[p.raw]? <;> simp [h, he, hr]
  | cons pe rest ih =>
    intro t i j
    rw [List.foldl_cons, ih]
    simp only [MCTSTree.modifyNode]
    rw [listModify_getElem?]
    by_cases hc : pe.1.raw = i
    · subst hc
      rw [if_pos rfl]
      cases h : t.nodes[pe.1.raw]? with
      | none => simp [h]
      | some n =>
        simp only [h, Option.map_some', Option.some_bind, backpropStep]
        rw [listModify_getElem?]
        by_cases hj : pe.2 = j
        · subst hj
          rw [if_pos rfl]
          cases he : n.edges[pe.2]? with
          | none => simp [he]
          | some e =>
            simp only [he, Option.map_some', List.countP_cons]
            rw [addRewards_get?_mem pc e.total_reward rewards p hp]
            cases hr : e.total_reward.data[p.raw]? <;>
              simp [hr]
            push_cast
            ring
        · rw [if_neg hj]
          cases he : n.edges[j]? with
          | none => simp [he]
          | some e =>
            cases hr : e.total_reward.data[p.raw]? <;>
              simp [he, hr, List.countP_cons, hj]
    · rw [if_neg hc]
      cases h : t.nodes[i]? with
      | none => simp [h]
      | some n =>
        cases he : n.edges[j]? with
        | none => simp [h, he]
        | some e =>
          cases hr : e.total_reward.data[p.raw]? <;>
            simp [h, he, hr, List.countP_cons, hc]

theorem MCTSTree.modifyNode_nodes (t : MCTSTree) (id : NodeId) (f : MCTSNode → MCTSNode) :
    (t.modifyNode id f).nodes = listModify f id.raw t.nodes := rfl

theorem map_bump_visits (o : Option MCTSNode) :
    ((o.map (fun n => { n with visits := n.visits + 1 })).map MCTSNode.visits) =
      (o.map MCTSNode.visits).map (fun v => v + 1) := by
  cases o <;> rfl

theorem bind_edges_bump (o : Option MCTSNode) (j : Nat) :
    (o.map (fun n => { n with visits := n.visits + 1 })).bind (fun n => n.edges[j]?) =
      o.bind (fun n => n.edges[j]?) := by
  cases o <;> rfl

/-- C4: MCTSSearch::backpropagate walks the path from tip toward the root
(the fold over path.reverse in the definition): counting multiplicities, each
(node, edge) pair of the path has its node visit count and edge visit count
incremented by one, and for every player p the value rewards[p] is added to
the edge's reward total, with no negation between levels; the root node's
visit counter additionally advances by exactly one per backpropagation (on
top of its increment as a path node), and it is advanced last. -/
theorem backpropagate_spec (tree : MCTSTree) (path : List (NodeId × Nat))
    (rewards : PlayerMap Rat) :
    (∀ i : Nat,
      ((backpropagate tree path rewards).nodes[i]?).map MCTSNode.visits =
        (tree.nodes[i]?).map (fun n => n.visits + path.countP (fun pe => pe.1.raw == i) +
          if tree.root.raw = i then 1 else 0)) ∧
    (∀ i j : Nat,
      (((backpropagate tree path rewards).nodes[i]?).bind (fun n => n.edges[j]?)).map
          Edge.visits =
        ((tree.nodes[i]?).bind (fun n => n.edges[j]?)).map
          (fun e => e.visits + path.countP (fun pe => pe.1.raw == i && pe.2 == j))) ∧
    (∀ (i j : Nat) (p : PlayerId), tree.player_count ≤ 255 → p.raw < tree.player_count →
      (((backpropagate tree path rewards).nodes[i]?).bind (fun n => n.edges[j]?)).map
          (fun e => e.total_reward.data[p.raw]?) =
        ((tree.nodes[i]?).bind (fun n => n.edges[j]?)).map
          (fun e => (e.total_reward.data[p.raw]?).map
            (fun x => x + (path.countP (fun pe => pe.1.raw == i && pe.2 == j) : Rat) *
              rewards.get p 0))) := by
  have hbp : backpropagate tree path rewards =
      (path.reverse.foldl
        (fun tr pe => tr.modifyNode pe.1 (backpropStep tree.player_count rewards pe.2))
        tree).modifyNode
        (path.reverse.foldl
          (fun tr pe => tr.modifyNode pe.1 (backpropStep tree.player_count rewards pe.2))
          tree).root
        (fun n => { n with visits := n.visits + 1 }) := rfl
  have hroot := bp_fold_root tree.player_count rewards path.reverse tree
  refine ⟨?_, ?_, ?_⟩
  · intro i
    have hv := bp_fold_visits tree.player_count rewards path.reverse tree i
    rw [countP_reverse] at hv
    rw [hbp, MCTSTree.modifyNode_nodes, listModify_getElem?, hroot]
    by_cases hri : tree.root.raw = i
    · rw [if_pos hri, map_bump_visits, hv]
      cases h0 : tree.nodes[i]? <;> simp [hri]
    · rw [if_neg hri, hv]
      cases h0 : tree.nodes[i]? <;> simp [hri]
  · intro i j
    have hv := bp_fold_edge_visits tree.player_count rewards path.reverse tree i j
    rw [countP_reverse] at hv
    rw [hbp, MCTSTree.modifyNode_nodes, listModify_getElem?, hroot]
    by_cases hri : tree.root.raw = i
    · rw [if_pos hri, bind_edges_bump, hv]
    · rw [if_neg hri, hv]
  · intro i j p hpc hp
    have hmem : p ∈ PlayerId.all tree.player_count :=
      PlayerId.mem_all.mpr (by omega)
    have hv := bp_fold_edge_reward tree.player_count rewards p hmem path.reverse tree i j
    rw [countP_reverse] at hv
    rw [hbp, MCTSTree.modifyNode_nodes, listModify_getElem?, hroot]
    by_cases hri : tree.root.raw = i
    · rw [if_pos hri, bind_edges_bump, hv]
    · rw [if_neg hri, hv]

/-- C4 witness: backpropagating rew0 along path0 in tree0 leaves the root with
2 visits (one as a path node, one as the root), its edge with 1 visit, and 1
added to the edge's player-0 reward. -/
theorem backpropagate_spec_witness :
    ((backpropagate tree0 path0 rew0).nodes[0]?).map MCTSNode.visits = some 2 ∧
    (((backpropagate tree0 path0 rew0).nodes[0]?).bind (fun n => n.edges[0]?)).map
      Edge.visits = some 1 ∧
    (((backpropagate tree0 path0 rew0).nodes[0]?).bind (fun n => n.edges[0]?)).map
      (fun e => e.total_reward.data[(PlayerId.new 0).raw]?) = some (some 1) := by
  have h := backpropagate_spec tree0 path0 rew0
  refine ⟨?_, ?_, ?_⟩
  · rw [h.1 0]
    decide
  · rw [h.2.1 0 0]
    decide
  · rw [h.2.2 0 0 (PlayerId.new 0) (by decide) (by decide)]
    norm_num [tree0, path0, rew0, Edge.mkNew, PlayerMap.with_value, PlayerMap.get, PlayerId.new]

theorem mapLookup_eq_none_iff {κ α : Type} [DecidableEq κ] (k : κ) (m : List (κ × α)) :
    mapLookup k m = none ↔ k ∉ m.map Prod.fst := by
  induction m with
  | nil => simp [mapLookup]
  | cons kv rest ih =>
    obtain ⟨k1, v⟩ := kv
    simp only [mapLookup, List.map_cons, List.mem_cons]
    by_cases h : k1 = k
    · subst h
      simp
    · rw [if_neg h, ih]
      constructor
      · intro hn hc
        rcases hc with hc | hc
        · exact h hc.symm
        · exact hn hc
      · intro hn hc
        exact hn (Or.inr hc)

theorem mapLookup_mapInsert_self {κ α : Type} [DecidableEq κ] (k : κ) (v : α)
    (m : List (κ × α)) : mapLookup k (mapInsert k v m) = some v := by
  induction m with
  | nil => simp [mapInsert, mapLookup]
  | cons kv rest ih =>
    obtain ⟨k1, v1⟩ := kv
    by_cases h : k1 = k
    · simp [mapInsert, mapLookup, h]
    · simp [mapInsert, mapLookup, h, ih]

theorem mapLookup_mapInsert_ne {κ α : Type} [DecidableEq κ] (k k2 : κ) (v : α)
    (m : List (κ × α)) (h : k ≠ k2) :
    mapLookup k2 (mapInsert k v m) = mapLookup k2 m := by
  induction m with
  | nil => simp [mapInsert, mapLookup, h]
  | cons kv rest ih =>
    obtain ⟨k1, v1⟩ := kv
    by_cases h1 : k1 = k
    · subst h1
      simp [mapInsert, mapLookup, h]
    · simp [mapInsert, mapLookup, h1, ih]

theorem mapLookup_mapRemove_ne {κ α : Type} [DecidableEq κ] (k k2 : κ)
    (m : List (κ × α)) (h : k ≠ k2) :
    mapLookup k2 (mapRemove k m) = mapLookup k2 m := by
  induction m with
  | nil => simp [mapRemove]
  | cons kv rest ih =>
    obtain ⟨k1, v1⟩ := kv
    by_cases h1 : k1 = k
    · subst h1
      simp [mapRemove, mapLookup, h]
    · simp [mapRemove, mapLookup, h1, ih]

theorem mapLookup_mapRemove_self {κ α : Type} [DecidableEq κ] (k : κ)
    (m : List (κ × α)) (h : (m.map Prod.fst).Nodup) :
    mapLookup k (mapRemove k m) = none := by
  induction m with
  | nil => simp [mapRemove, mapLookup]
  | cons kv rest ih =>
    obtain ⟨k1, v1⟩ := kv
    have h1 := (List.nodup_cons.mp h).1
    have h2 := (List.nodup_cons.mp h).2
    by_cases hk : k1 = k
    · subst hk
      simp only [mapRemove, if_pos rfl]
      exact (mapLookup_eq_none_iff k1 rest).mpr (by simpa using h1)
    · simp [mapRemove, mapLookup, hk, ih h2]

theorem mapLookup_mapAdjust_self {κ α : Type} [DecidableEq κ] (k : κ) (f : α → α)
    (m : List (κ × α)) : mapLookup k (mapAdjust k f m) = (mapLookup k m).map f := by
  induction m with
  | nil => simp [mapAdjust, mapLookup]
  | cons kv rest ih =>
    obtain ⟨k1, v1⟩ := kv
    by_cases h : k1 = k
    · simp [mapAdjust, mapLookup, h]
    · simp [mapAdjust, mapLookup, h, ih]

theorem mapLookup_mapAdjust_ne {κ α : Type} [DecidableEq κ] (k k2 : κ) (f : α → α)
    (m : List (κ × α)) (h : k ≠ k2) :
    mapLookup k2 (mapAdjust k f m) = mapLookup k2 m := by
  induction m with
  | nil => simp [mapAdjust]
  | cons kv rest ih =>
    obtain ⟨k1, v1⟩ := kv
    by_cases h1 : k1 = k
    · subst h1
      simp [mapAdjust, mapLookup, h]
    · simp [mapAdjust, mapLookup, h1, ih]

theorem mem_keys_mapInsert {κ α : Type} [DecidableEq κ] (a k : κ) (v : α)
    (m : List (κ × α)) :
    a ∈ (mapInsert k v m).map Prod.fst ↔ a = k ∨ a ∈ m.map Prod.fst := by
  induction m with
  | nil => simp [mapInsert]
  | cons kv rest ih =>
    obtain ⟨k1, v1⟩ := kv
    by_cases h : k1 = k
    · subst h
      simp [mapInsert]
    · simp [mapInsert, h, ih]
      tauto

theorem nodup_keys_mapInsert {κ α : Type} [DecidableEq κ] (k : κ) (v : α)
    (m : List (κ × α)) (h : (m.map Prod.fst).Nodup) :
    ((mapInsert k v m).map Prod.fst).Nodup := by
  induction m with
  | nil => simp [mapInsert]
  | cons kv rest ih =>
    obtain ⟨k1, v1⟩ := kv
    have h1 := (List.nodup_cons.mp h).1
    have h2 := (List.nodup_cons.mp h).2
    by_cases hk : k1 = k
    · subst hk
      simp only [mapInsert, if_pos rfl, List.map_cons]
      simpa using h
    · simp only [mapInsert, if_neg hk, List.map_cons, List.nodup_cons]
      refine ⟨?_, ih h2⟩
      intro hmem
      rcases (mem_keys_mapInsert k1 k v rest).mp hmem with h | h
      · exact hk h
      · exact h1 h

theorem keys_mapRemove_sublist {κ α : Type} [DecidableEq κ] (k : κ)
    (m : List (κ × α)) :
    ((mapRemove k m).map Prod.fst).Sublist (m.map Prod.fst) := by
  induction m with
  | nil => simp [mapRemove]
  | cons kv rest ih =>
    obtain ⟨k1, v1⟩ := kv
    by_cases h : k1 = k
    · simp only [mapRemove, if_pos h, List.map_cons]
      exact (List.sublist_cons_self _ _)
    · simp only [mapRemove, if_neg h, List.map_cons]
      exact ih.cons₂ k1

theorem nodup_keys_mapRemove {κ α : Type} [DecidableEq κ] (k : κ)
    (m : List (κ × α)) (h : (m.map Prod.fst).Nodup) :
    ((mapRemove k m).map Prod.fst).Nodup :=
  (keys_mapRemove_sublist k m).nodup h

theorem PlayerMap.get_modify_self {α : Type} (m : PlayerMap α) (p : PlayerId)
    (f : α → α) (d : α) (hp : p.raw < m.data.length) :
    (m.modify p f).get p d = f (m.get p d) := by
  simp only [PlayerMap.modify, PlayerMap.get, List.getD_eq_getElem?_getD]
  rw [listModify_getElem?, if_pos rfl, List.getElem?_eq_getElem hp]
  rfl

theorem PlayerMap.length_modify {α : Type} (m : PlayerMap α) (p : PlayerId) (f : α → α) :
    (m.modify p f).data.length = m.data.length :=
  listModify_length f p.raw m.data

/-- Full characterization of the DrawCards loop: with a distinct destination
zone, unique location keys, and the deck zone ordered with sequence seq, the
loop draws exactly min count |seq| cards, leaves the deck sequence a prefix,
bumps the hand size once per card drawn, and appends the drawn entities (in
pop order) to the destination zone sequence when that zone is ordered. -/
theorem drawLoop_spec (deck hand : ZoneId) (player : PlayerId) (hdh : deck ≠ hand) :
    ∀ (count : Nat) (s : GameState) (seq : List EntityId),
      (s.zones.locations.map Prod.fst).Nodup →
      mapLookup deck s.zones.zone_order = some seq →
      player.raw < s.public.hand_sizes.data.length →
      (drawLoop s deck hand player count).2 = min count seq.length ∧
      mapLookup deck (drawLoop s deck hand player count).1.zones.zone_order =
        some (seq.take (seq.length - min count seq.length)) ∧
      (drawLoop s deck hand player count).1.public.hand_sizes.get player 0 =
        s.public.hand_sizes.get player 0 + min count seq.length ∧
      (∀ hseq0 : List EntityId, mapLookup hand s.zones.zone_order = some hseq0 →
        mapLookup hand (drawLoop s deck hand player count).1.zones.zone_order =
          some (hseq0 ++ (seq.drop (seq.length - min count seq.length)).reverse)) := by
  intro count
  induction count with
  | zero =>
    intro s seq hkeys hseq hhs
    refine ⟨by simp [drawLoop], ?_, by simp [drawLoop], ?_⟩
    · simpa [drawLoop] using hseq
    · intro hseq0 h0
      simpa [drawLoop] using h0
  | succ n ih =>
    intro s seq hkeys hseq hhs
    cases hlast : seq.getLast? with
    | none =>
      have hseqnil : seq = [] := List.getLast?_eq_none_iff.mp hlast
      subst hseqnil
      have hpop : s.zones.pop_top deck = (s.zones, none) := by
        simp [ZoneManager.pop_top, hseq]
      have hdl : drawLoop s deck hand player (n + 1) = (s, 0) := by
        simp only [drawLoop, hpop]
      rw [hdl]
      refine ⟨by simp, by simpa using hseq, by simp, ?_⟩
      intro hseq0 h0
      simpa using h0
    | some e =>
      obtain ⟨init, rfl⟩ := List.getLast?_eq_some_iff.mp hlast
      have hpop : s.zones.pop_top deck =
          ({ locations := mapRemove e s.zones.locations,
             zone_order := mapInsert deck init s.zones.zone_order }, some e) := by
        simp [ZoneManager.pop_top, hseq, List.getLast?_concat]
      have hcont : mapContains e (mapRemove e s.zones.locations) = false := by
        simp [mapContains, mapLookup_mapRemove_self e s.zones.locations hkeys]
      have hnd3 : ((mapInsert e hand (mapRemove e s.zones.locations)).map Prod.fst).Nodup :=
        nodup_keys_mapInsert e hand _ (nodup_keys_mapRemove e _ hkeys)
      have hdne : ¬ hand = deck := fun h => hdh h.symm
      -- the state after one draw iteration
      have hdl : drawLoop s deck hand player (n + 1) =
          ((drawLoop { s with zones := ({ locations := mapRemove e s.zones.locations, zone_order := mapInsert deck init s.zones.zone_order } : ZoneManager).add_to_zone e hand none, cards := mapAdjust e (fun card => { card with zone := hand }) s.cards, public := { s.public with hand_sizes := s.public.hand_sizes.modify player (· + 1) } }
            deck hand player n).1,
           (drawLoop { s with zones := ({ locations := mapRemove e s.zones.locations, zone_order := mapInsert deck init s.zones.zone_order } : ZoneManager).add_to_zone e hand none, cards := mapAdjust e (fun card => { card with zone := hand }) s.cards, public := { s.public with hand_sizes := s.public.hand_sizes.modify player (· + 1) } }
            deck hand player n).2 + 1) := by
        simp only [drawLoop, hpop, GameState.adjust_card]
      have hz3keys : ((({ locations := mapRemove e s.zones.locations, zone_order := mapInsert deck init s.zones.zone_order } : ZoneManager).add_to_zone e hand none).locations.map Prod.fst).Nodup := by
        by_cases hho : mapContains hand (mapInsert deck init s.zones.zone_order) <;>
          simp only [ZoneManager.add_to_zone, hcont, Bool.false_eq_true, if_false, hho,
            if_true, if_false] <;>
          first
          | exact hnd3
          | (split <;> exact hnd3)
      have hz3deck : mapLookup deck (({ locations := mapRemove e s.zones.locations, zone_order := mapInsert deck init s.zones.zone_order } : ZoneManager).add_to_zone e hand none).zone_order = some init := by
        by_cases hho : mapContains hand (mapInsert deck init s.zones.zone_order)
        · simp [ZoneManager.add_to_zone, hcont, hho,
            mapLookup_mapAdjust_ne hand deck _ _ hdne, mapLookup_mapInsert_self]
        · simp [ZoneManager.add_to_zone, hcont, hho, mapLookup_mapInsert_self]
      have hz3hand : ∀ hseq0 : List EntityId,
          mapLookup hand s.zones.zone_order = some hseq0 →
          mapLookup hand (({ locations := mapRemove e s.zones.locations, zone_order := mapInsert deck init s.zones.zone_order } : ZoneManager).add_to_zone e hand none).zone_order = some (hseq0 ++ [e]) := by
        intro hseq0 h0
        have h1 : mapLookup hand (mapInsert deck init s.zones.zone_order) = some hseq0 :=
          (mapLookup_mapInsert_ne deck hand init _ hdh).trans h0
        have hho : mapContains hand (mapInsert deck init s.zones.zone_order) = true := by
          simp [mapContains, h1]
        simp [ZoneManager.add_to_zone, hcont, hho, mapLookup_mapAdjust_self, h1, insertAt]
      obtain ⟨ha', hb', hc', hd'⟩ := ih { s with zones := ({ locations := mapRemove e s.zones.locations, zone_order := mapInsert deck init s.zones.zone_order } : ZoneManager).add_to_zone e hand none, cards := mapAdjust e (fun card => { card with zone := hand }) s.cards, public := { s.public with hand_sizes := s.public.hand_sizes.modify player (· + 1) } }
        init hz3keys hz3deck
        (by simpa [PlayerMap.length_modify] using hhs)
      have hidx : (init ++ [e]).length - min (n + 1) (init ++ [e]).length =
          init.length - min n init.length := by
        simp
        omega
      refine ⟨?_, ?_, ?_, ?_⟩
      · rw [hdl]
        simp only [ha']
        simp
        omega
      · rw [hdl]
        simp only [hb', hidx]
        rw [List.take_append_of_le_length (by omega)]
      · rw [hdl]
        simp only [hc']
        have hg : ((s.public.hand_sizes.modify player (· + 1)).get player 0) =
            s.public.hand_sizes.get player 0 + 1 :=
          PlayerMap.get_modify_self s.public.hand_sizes player (· + 1) 0 hhs
        simp only [hg]
        simp
        omega
      · intro hseq0 h0
        rw [hdl]
        rw [hd' (hseq0 ++ [e]) (hz3hand hseq0 h0), hidx,
          List.drop_append_of_le_length (by omega), List.reverse_append]
        simp

/-- C5: resolving DrawCards n on a valid player target draws
min n (deck length) cards: the result is Failed ("Deck was empty") exactly
when zero cards are drawn (empty source zone or n = 0) and Success otherwise;
the public hand size grows by exactly the number drawn (so it is unchanged on
an empty source zone); the drawn cards are popped from the top (back) of the
source zone order, which keeps its first (length - drawn) cards; and each
drawn card is pushed to the top of the destination zone order in pop order. -/
theorem draw_cards_spec (s : GameState) (count : Nat) (fz tz : Option ZoneId)
    (target : EntityId) (ctx : ResolverContext) (idx : Nat) (deck hand : ZoneId)
    (seq : List EntityId)
    (htarget : target.as_player_index s.player_count = some idx)
    (hdeck : fz.getD (ctx.get_deck_zone (PlayerId.new idx)) = deck)
    (hhand : tz.getD (ctx.get_hand_zone (PlayerId.new idx)) = hand)
    (hdh : deck ≠ hand)
    (hkeys : (s.zones.locations.map Prod.fst).Nodup)
    (hseq : mapLookup deck s.zones.zone_order = some seq)
    (hhs : (PlayerId.new idx).raw < s.public.hand_sizes.data.length) :
    (resolveSingle s (Effect.DrawCards count fz tz) target ctx).2 =
      (if min count seq.length = 0 then ResolveResult.Failed "Deck was empty"
       else ResolveResult.Success) ∧
    (resolveSingle s (Effect.DrawCards count fz tz) target ctx).1.public.hand_sizes.get
        (PlayerId.new idx) 0 =
      s.public.hand_sizes.get (PlayerId.new idx) 0 + min count seq.length ∧
    mapLookup deck
        (resolveSingle s (Effect.DrawCards count fz tz) target ctx).1.zones.zone_order =
      some (seq.take (seq.length - min count seq.length)) ∧
    ∀ hseq0 : List EntityId, mapLookup hand s.zones.zone_order = some hseq0 →
      mapLookup hand
          (resolveSingle s (Effect.DrawCards count fz tz) target ctx).1.zones.zone_order =
        some (hseq0 ++ (seq.drop (seq.length - min count seq.length)).reverse) := by
  obtain ⟨ha, hb, hc, hd⟩ :=
    drawLoop_spec deck hand (PlayerId.new idx) hdh count s seq hkeys hseq hhs
  have hr : resolveSingle s (Effect.DrawCards count fz tz) target ctx =
      (if (drawLoop s deck hand (PlayerId.new idx) count).2 > 0
       then ((drawLoop s deck hand (PlayerId.new idx) count).1, ResolveResult.Success)
       else ((drawLoop s deck hand (PlayerId.new idx) count).1,
             ResolveResult.Failed "Deck was empty")) := by
    rw [resolveSingle, htarget]
    simp only [hdeck, hhand]
  have hfst : (resolveSingle s (Effect.DrawCards count fz tz) target ctx).1 =
      (drawLoop s deck hand (PlayerId.new idx) count).1 := by
    rw [hr]
    by_cases h : (drawLoop s deck hand (PlayerId.new idx) count).2 > 0 <;>
      simp [h]
  refine ⟨?_, ?_, ?_, ?_⟩
  · rw [hr]
    by_cases h0 : min count seq.length = 0
    · rw [if_pos h0, if_neg (by omega : ¬ (drawLoop s deck hand (PlayerId.new idx) count).2 > 0)]
    · have h1 : (drawLoop s deck hand (PlayerId.new idx) count).2 > 0 := by
        rw [ha]; omega
      rw [if_neg h0, if_pos h1]
  · rw [hfst, hc]
  · rw [hfst, hb]
  · intro hseq0 h0
    rw [hfst, hd hseq0 h0]

/-- C5 witness: drawing 1 card for player 0 from the one-card deck succeeds,
the hand size becomes 1, the deck order empties and the card moves to the top
of the hand order. -/
theorem draw_cards_spec_witness :
    (resolveSingle sDraw (Effect.DrawCards 1 none none) (EntityId.player_id 0) ctx0).2 =
      ResolveResult.Success ∧
    (resolveSingle sDraw (Effect.DrawCards 1 none none) (EntityId.player_id 0)
        ctx0).1.public.hand_sizes.get (PlayerId.new 0) 0 = 1 ∧
    mapLookup (⟨0⟩ : ZoneId) (resolveSingle sDraw (Effect.DrawCards 1 none none)
        (EntityId.player_id 0) ctx0).1.zones.zone_order = some [] ∧
    mapLookup (⟨1⟩ : ZoneId) (resolveSingle sDraw (Effect.DrawCards 1 none none)
        (EntityId.player_id 0) ctx0).1.zones.zone_order = some [(⟨10⟩ : EntityId)] := by
  have h := draw_cards_spec sDraw 1 none none (EntityId.player_id 0) ctx0 0
    (⟨0⟩ : ZoneId) (⟨1⟩ : ZoneId) [(⟨10⟩ : EntityId)]
    (by decide) (by decide) (by decide) (by decide) (by decide) (by decide) (by decide)
  refine ⟨?_, ?_, ?_, ?_⟩
  · rw [h.1]; decide
  · rw [h.2.1]; decide
  · rw [h.2.2.1]; decide
  · rw [h.2.2.2 [] (by decide)]; decide

end RustCcg
